import Mathlib

/-!
# vset-detect: consistency checker, changelog builder and ingest step

A shallow embedding of the Go sources `cli.go`, `db.go`, `client.go` and `util.go`.

* `time.Time` instants are integers (`Before` is `<`, `After` is `>`).
* Go slices are lists; a loop over a slice with an index variable is a recursion over the
  remaining suffix that carries the index.
* The content of the LevelDB store is a map from key strings to byte strings which is
  passed through every operation that can write to it.
* What lies outside the repository (remote node, JSON codec, MD5, environment, outcome of
  a write) is a record of functions, `External`.
-/

namespace VsetDetect

/-! ## Data model (`util.go`) -/

/-- The record `ValsetUpdate` of `util.go`. -/
structure ValsetUpdate where
  ValidatorsHash : String
  OldValidatorsHash : String
  Md5Hash : String
  OldMd5Hash : String
  Height : Int
  Timestamp : Int
  deriving DecidableEq, Repr

/-! ## Consistency checker (`cli.go`, `viewMissingValidator` and its helpers) -/

/-- The `for i < len(validatorSet)` loop of `isInOrder`: the first argument is the suffix
`validatorSet[i:]`, then `i`, `foundBlockCurrent` and `foundBlockPrevious`; the result is
the pair `(foundBlockCurrent, foundBlockPrevious)` when the loop is left. -/
def isInOrderLoop (vs : ValsetUpdate) : List ValsetUpdate → Nat → Nat → Nat → Nat × Nat
  | [], _, foundBlockCurrent, foundBlockPrevious => (foundBlockCurrent, foundBlockPrevious)
  | p :: rest, i, foundBlockCurrent, foundBlockPrevious =>
    if p.Timestamp > vs.Timestamp then
      (foundBlockCurrent, foundBlockPrevious)
    else
      isInOrderLoop vs rest (i + 1)
        (if foundBlockCurrent = 0 ∧ p.Md5Hash = vs.Md5Hash then i else foundBlockCurrent)
        (if foundBlockPrevious = 0 ∧ p.Md5Hash = vs.OldMd5Hash then i else foundBlockPrevious)

/-- The function `isInOrder` of `cli.go`. -/
def isInOrder (validatorSet : List ValsetUpdate) (vs : ValsetUpdate) : Bool :=
  if vs.OldMd5Hash = "" then
    true
  else
    let r := isInOrderLoop vs validatorSet 0 0 0
    decide (r.2 < r.1)

/-- The function `existsBeforeTimestamp` of `cli.go`. -/
def existsBeforeTimestamp : List ValsetUpdate → String → Int → Bool
  | [], _, _ => false
  | vs :: rest, hash, timestamp =>
    if vs.Md5Hash = hash ∧ vs.Timestamp < timestamp then true
    else existsBeforeTimestamp rest hash timestamp

/-- A Go `map[string]ValsetUpdate`. -/
abbrev ValsetMap := String → Option ValsetUpdate

/-- The loop `for _, vs := range validatorSetProvider { valset[vs.Md5Hash] = vs }`. -/
def buildValset : List ValsetUpdate → ValsetMap → ValsetMap
  | [], valset => valset
  | vs :: rest, valset =>
    buildValset rest (fun k => if k = vs.Md5Hash then some vs else valset k)

/-- The three counters of `viewMissingValidator`. -/
structure Counts where
  missingCount : Nat
  notExistedOnProvider : Nat
  outOfOrderCount : Nat
  deriving DecidableEq, Repr

/-- The body of the loop over `validatorSetConsumer` in `viewMissingValidator`. -/
def classify (validatorSetProvider : List ValsetUpdate) (firstProviderHash : ValsetUpdate)
    (valset : ValsetMap) (c : Counts) (vs : ValsetUpdate) : Counts :=
  if vs.Timestamp < firstProviderHash.Timestamp then
    c
  else if (valset vs.Md5Hash).isNone then
    { c with missingCount := c.missingCount + 1 }
  else if !existsBeforeTimestamp validatorSetProvider vs.Md5Hash vs.Timestamp then
    { c with notExistedOnProvider := c.notExistedOnProvider + 1 }
  else if !isInOrder validatorSetProvider vs then
    { c with outOfOrderCount := c.outOfOrderCount + 1 }
  else
    c

/-- The loop over `validatorSetConsumer` in `viewMissingValidator`. -/
def classifyAll (validatorSetProvider : List ValsetUpdate) (firstProviderHash : ValsetUpdate)
    (valset : ValsetMap) : Counts → List ValsetUpdate → Counts
  | c, [] => c
  | c, vs :: rest =>
    classifyAll validatorSetProvider firstProviderHash valset
      (classify validatorSetProvider firstProviderHash valset c vs) rest

/-- The classification part of `viewMissingValidator` (from the read of
`validatorSetProvider[0]` to the three reported counts). The result is `none` when the read
of `validatorSetProvider[0]` is out of range. -/
def viewMissingValidator (validatorSetProvider validatorSetConsumer : List ValsetUpdate) :
    Option Counts :=
  match validatorSetProvider with
  | [] => none
  | firstProviderHash :: _ =>
    some (classifyAll validatorSetProvider firstProviderHash
      (buildValset validatorSetProvider (fun _ => none)) ⟨0, 0, 0⟩ validatorSetConsumer)

/-- The ordering test as the specification words it: cut the provider sequence at the first
event strictly after the consumer event, take the index of the first event of that prefix
with the previous content hash and the index of the first with the own content hash (0 when
there is none), and compare. -/
def isInOrderSpec (validatorSet : List ValsetUpdate) (vs : ValsetUpdate) : Bool :=
  let pre := validatorSet.takeWhile (fun p => !decide (p.Timestamp > vs.Timestamp))
  let ip := (pre.findIdx? (fun p => decide (p.Md5Hash = vs.OldMd5Hash))).getD 0
  let ic := (pre.findIdx? (fun p => decide (p.Md5Hash = vs.Md5Hash))).getD 0
  decide (ip < ic)

/-- The consumer events that the missing rule applies to: not before the provider epoch and
with a content hash that no provider event carries. -/
def isMissingEvent (P : List ValsetUpdate) (first : ValsetUpdate) (e : ValsetUpdate) : Bool :=
  !decide (e.Timestamp < first.Timestamp) && P.all (fun p => !decide (p.Md5Hash = e.Md5Hash))

/-! ## External collaborators -/

/-- A Go `[]byte`. -/
abbrev Bytes := List Nat

/-- The fields of `types.Block` (tendermint) that the program reads; `Evidence` is the list
`block.Evidence.Evidence`, each item kept opaque. -/
structure Block where
  Height : Int
  Time : Int
  ValidatorsHash : Bytes
  Evidence : List Bytes
  deriving DecidableEq, Repr

/-- The fields of `types.Validator` (tendermint) that the program reads. -/
structure Validator where
  Address : Bytes
  VotingPower : Int
  deriving DecidableEq, Repr

/-- LevelDB content: a map from key to stored value. `db.Has` and `db.Get` read this map (a
`Get` of an absent key is the error `leveldb.ErrNotFound`). -/
abbrev DB := String → Option Bytes

/-- A successful `db.Put(key, value, nil)`. -/
def DB.put (db : DB) (key : String) (value : Bytes) : DB :=
  fun k => if k = key then some value else db k

/-- Everything that `validatorSetAll` and `indexBlock` reach outside the repository: the
process environment, the file system, the remote node behind the tendermint HTTP client, the
JSON codec, MD5, and whether a write to LevelDB succeeds. -/
structure External where
  /-- The value of `os.Getenv(fmt.Sprintf("%s_ADDR", strings.ToUpper(chain)))`. -/
  envAddr : String → String
  /-- The value of `os.Getenv(fmt.Sprintf("%s_MIN_HEIGHT", strings.ToUpper(chain)))`. -/
  envMinHeight : String → String
  /-- Whether `http.New(addr)` fails. -/
  newClientFails : String → Bool
  /-- Whether `os.Create(fileName)` fails. -/
  createFails : String → Bool
  /-- The answer `response.SyncInfo.LatestBlockHeight` of `client.Status`, if any. -/
  clientStatus : Option Int
  /-- The answer `response.Block` of `client.Block` at a height, if any. -/
  clientBlock : Int → Option Block
  /-- The answer `response.Validators` of `client.Validators` at a height, if any. -/
  clientValidators : Int → Option (List Validator)
  /-- The function `json.Marshal` on a block. -/
  marshalBlock : Block → Option Bytes
  /-- The function `json.Unmarshal` into a block. -/
  unmarshalBlock : Bytes → Option Block
  /-- The function `json.Marshal` on an evidence list. -/
  marshalEvidence : List Bytes → Option Bytes
  /-- The function `json.Marshal` on a validator list (its error is discarded by the caller). -/
  marshalValidators : List Validator → Bytes
  /-- The function `json.Unmarshal` into a validator list. -/
  unmarshalValidators : Bytes → Option (List Validator)
  /-- The hex rendering of `md5.Sum`. -/
  md5Hex : String → String
  /-- Whether `db.Put` on a key fails (a failed write leaves the content as it was). -/
  putFails : String → Bool

/-! ## Cache keys (`db.go`) -/

/-- The function `BlockKey` of `db.go`. -/
def BlockKey (providerName : String) (height : Nat) : String :=
  providerName ++ ":block:" ++ toString height

/-- The function `EvidenceKey` of `db.go`. -/
def EvidenceKey (providerName : String) (height : Nat) : String :=
  providerName ++ ":evidence:" ++ toString height

/-- The key `fmt.Sprintf("%s:validatorz:%d", c.name, height)` of `GetValidatorsAtHeight`. -/
def validatorzKey (name : String) (height : Int) : String :=
  name ++ ":validatorz:" ++ toString height

/-! ## Chain client (`client.go`) -/

/-- The conversion `int64(height)` of a `uint64`. -/
def toInt64 (height : Nat) : Int :=
  if height % 2 ^ 64 < 2 ^ 63 then ((height % 2 ^ 64 : Nat) : Int)
  else ((height % 2 ^ 64 : Nat) : Int) - 2 ^ 64

/-- The conversion `uint64(v)` of an `int64`. -/
def toUint64 (v : Int) : Nat := (v % 2 ^ 64).toNat

/-- The method `GetLatestBlockHeight` of `client.go`. -/
def GetLatestBlockHeight (x : External) : Except String Nat :=
  match x.clientStatus with
  | none => .error "failed to get latest block height"
  | some h => .ok (toUint64 h)

/-- The method `GetBlockByHeight` of `client.go`. -/
def GetBlockByHeight (x : External) (height : Nat) : Except String (Block × Option Bytes) :=
  match x.clientBlock (toInt64 height) with
  | none => .error "failed to get block"
  | some block =>
    if block.Evidence.length = 0 then .ok (block, none)
    else
      match x.marshalEvidence block.Evidence with
      | none => .error "failed to marshal evidence"
      | some evidenceBytes => .ok (block, some evidenceBytes)

/-- The method `GetValidatorsAtHeight` of `client.go`, with the LevelDB content passed
through. -/
def GetValidatorsAtHeight (x : External) (name : String) (db : DB) (height : Int) :
    Except String (List Validator) × DB :=
  let key := validatorzKey name height
  match db key with
  | some data =>
    match x.unmarshalValidators data with
    | none => (.error "failed to unmarshal validators", db)
    | some validators => (.ok validators, db)
  | none =>
    match x.clientValidators height with
    | none => (.error "failed to get validators", db)
    | some vals =>
      let data := x.marshalValidators vals
      let db' := if x.putFails key then db else db.put key data
      match x.unmarshalValidators data with
      | none => (.error "failed to unmarshal validators", db')
      | some validators => (.ok validators, db')

/-! ## Content hash (`cli.go`, `getValsetHash`) -/

/-- One upper-case hexadecimal digit. -/
def hexDigitUpper (n : Nat) : Char :=
  if n < 10 then Char.ofNat (48 + n) else Char.ofNat (55 + n)

/-- The rendering of `bytes.HexBytes` under the verb `%s` (and of its `String` method):
upper-case hexadecimal, two digits per byte. -/
def hexUpper (bz : Bytes) : String :=
  String.mk (bz.flatMap (fun b => [hexDigitUpper (b / 16 % 16), hexDigitUpper (b % 16)]))

/-- The rendering `fmt.Sprintf("%s:%d", val.Address, val.VotingPower)`. -/
def renderValidator (val : Validator) : String :=
  hexUpper val.Address ++ ":" ++ toString val.VotingPower

/-- The function `getValsetHash` of `cli.go`; `sort.Strings` is a sort by `≤` on strings, and
the MD5 digest is taken from outside. -/
def getValsetHash (md5Hex : String → String) (valsetlist : List Validator) : String :=
  let valset := valsetlist.foldl (fun valset val => valset ++ [renderValidator val]) []
  let valset := valset.insertionSort (· ≤ ·)
  let valsetstr := ";".intercalate valset
  md5Hex valsetstr

/-! ## Changelog builder (`cli.go`, `validatorSetAll`) -/

/-- The function `strconv.ParseUint(s, 10, 64)`: a non-empty string of decimal digits whose
value fits 64 bits. -/
def parseUint (s : String) : Option Nat :=
  if s.data = [] then none
  else if s.data.all Char.isDigit then
    let v := s.data.foldl (fun acc ch => 10 * acc + (ch.toNat - 48)) 0
    if v < 2 ^ 64 then some v else none
  else none

/-- The loop `for i := consumerMinHeight; i <= lb; i++` of `validatorSetAll`. The arguments
after the fuel are `i`, the LevelDB content, `lastValidatorHash`, `lastMd5Hash` and
`validatorSet`; `i++` is the increment of a `uint64`. The result is `none` when the fuel does
not suffice to leave the loop. -/
def validatorSetLoop (x : External) (chain : String) (lb : Nat) :
    Nat → Nat → DB → String → String → List ValsetUpdate →
    Option (Except String (List ValsetUpdate) × DB)
  | 0, _, _, _, _, _ => none
  | fuel + 1, i, db, lastValidatorHash, lastMd5Hash, validatorSet =>
    if i ≤ lb then
      let key := BlockKey chain i
      match db key with
      | none => some (.ok validatorSet, db)
      | some data =>
        match x.unmarshalBlock data with
        | none => some (.error "failed to parse block", db)
        | some block =>
          let validatorsHash := hexUpper block.ValidatorsHash
          if validatorsHash ≠ lastValidatorHash then
            match GetValidatorsAtHeight x chain db block.Height with
            | (.error _, db') => some (.error "failed to get validator set at height", db')
            | (.ok valsetlist, db') =>
              let md5hash := getValsetHash x.md5Hex valsetlist
              let bh : ValsetUpdate :=
                { Height := block.Height
                  Timestamp := block.Time
                  ValidatorsHash := validatorsHash
                  OldValidatorsHash := lastValidatorHash
                  Md5Hash := md5hash
                  OldMd5Hash := lastMd5Hash }
              validatorSetLoop x chain lb fuel ((i + 1) % 2 ^ 64) db' validatorsHash md5hash
                (validatorSet ++ [bh])
          else
            validatorSetLoop x chain lb fuel ((i + 1) % 2 ^ 64) db lastValidatorHash
              lastMd5Hash validatorSet
    else
      some (.ok validatorSet, db)

/-- The function `validatorSetAll` of `cli.go`, with the LevelDB content passed through and
the fuel of its loop as first argument; `latestBlock` is `none` for a nil pointer. The lines
written to the file `validatorset-<chain>.csv` are the returned events and are left out. -/
def validatorSetAll (x : External) (fuel : Nat) (db : DB) (chain : String)
    (latestBlock : Option Nat) : Option (Except String (List ValsetUpdate) × DB) :=
  let consumerAddr := x.envAddr chain
  if consumerAddr = "" then some (.error "missing environment variable", db)
  else
    let consumerMinHeightStr := x.envMinHeight chain
    if consumerMinHeightStr = "" then some (.error "missing environment variable", db)
    else
      match parseUint consumerMinHeightStr with
      | none => some (.error "failed to parse minimum height", db)
      | some consumerMinHeight =>
        if x.newClientFails consumerAddr then some (.error "failed to create RPC client", db)
        else
          let lbr : Except String Nat :=
            match latestBlock with
            | none => GetLatestBlockHeight x
            | some lb => .ok lb
          match lbr with
          | .error _ => some (.error "failed to get latest block height", db)
          | .ok lb =>
            if lb < consumerMinHeight then
              some (.error "latest block is less than minimum height", db)
            else if x.createFails ("validatorset-" ++ chain ++ ".csv") then
              some (.error "failed to create file", db)
            else
              validatorSetLoop x chain lb fuel consumerMinHeight db "" "" []

/-- The calls `consumer.GetValidatorsAtHeight(block.Height)` that the loop of
`validatorSetAll` makes, in order, each as the LevelDB content at the time of the call and
the requested height. The arguments after the fuel are `i`, the LevelDB content and
`lastValidatorHash`, as in `validatorSetLoop`; a call that fails is the last one, since the
loop returns its error. -/
def validatorSetLookups (x : External) (chain : String) (lb : Nat) :
    Nat → Nat → DB → String → List (DB × Int)
  | 0, _, _, _ => []
  | fuel + 1, i, db, lastValidatorHash =>
    if i ≤ lb then
      let key := BlockKey chain i
      match db key with
      | none => []
      | some data =>
        match x.unmarshalBlock data with
        | none => []
        | some block =>
          let validatorsHash := hexUpper block.ValidatorsHash
          if validatorsHash ≠ lastValidatorHash then
            (db, block.Height) ::
              (match GetValidatorsAtHeight x chain db block.Height with
              | (.error _, _) => []
              | (.ok _, db') =>
                validatorSetLookups x chain lb fuel ((i + 1) % 2 ^ 64) db' validatorsHash)
          else
            validatorSetLookups x chain lb fuel ((i + 1) % 2 ^ 64) db lastValidatorHash
    else
      []

/-! ## Ingest step (`db.go`, `indexBlock`) -/

/-- The LevelDB content together with the log of the heights requested from the Chain Client
through `GetBlockByHeight`. -/
structure IngestState where
  db : DB
  fetches : List Nat

/-- The function `indexBlock` of `db.go`; the result is the returned error, if any, and the
state afterwards. -/
def indexBlock (x : External) (name : String) (s : IngestState) (height : Nat) (force : Bool) :
    Option String × IngestState :=
  let key := BlockKey name height
  let hasKey := (s.db key).isSome
  if hasKey && !force then
    (none, s)
  else
    let s₁ : IngestState := { s with fetches := s.fetches ++ [height] }
    match GetBlockByHeight x height with
    | .error _ => (some "failed to get block", s₁)
    | .ok (block, evidence) =>
      match x.marshalBlock block with
      | none => (some "failed to encode block", s₁)
      | some data =>
        if x.putFails key then (some "failed to save block", s₁)
        else
          let s₂ : IngestState := { s₁ with db := s₁.db.put key data }
          match evidence with
          | none => (none, s₂)
          | some ev =>
            let key := name ++ ":evidence:" ++ toString height
            if x.putFails key then (some "failed to save evidence", s₂)
            else (none, { s₂ with db := s₂.db.put key ev })

/-- The per-height ingest steps of `indexProvider` and `indexConsumer` (each calls
`indexBlock` with `force = false` and only logs its error), run one after the other over a
list of heights. -/
def indexHeights (x : External) (name : String) : IngestState → List Nat → IngestState
  | s, [] => s
  | s, height :: rest => indexHeights x name (indexBlock x name s height false).2 rest

/-- Hash chaining of a run of change events that follows the trackers
`(lastValidatorHash, lastMd5Hash)`: every event names the trackers as its previous hashes and
the next event follows the hashes of this one. -/
def chainedFrom : String → String → List ValsetUpdate → Prop
  | _, _, [] => True
  | lastValidatorHash, lastMd5Hash, e :: rest =>
    e.OldValidatorsHash = lastValidatorHash ∧ e.OldMd5Hash = lastMd5Hash ∧
      chainedFrom e.ValidatorsHash e.Md5Hash rest

/-! ## The consistency checker with checked index reads -/

/-- The outcome of a run in which every index read is checked: a result, a read outside the
slice (a Go run-time panic), or a loop that the fuel did not suffice to leave. -/
inductive Run (α : Type) where
  | ok : α → Run α
  | indexOutOfRange : Run α
  | outOfFuel : Run α
  deriving DecidableEq, Repr

/-- The loop of `isInOrder` with its index variable `i` and the reads `validatorSet[i]`
checked against `len(validatorSet)`; the arguments after the fuel are `i`,
`foundBlockCurrent` and `foundBlockPrevious`. -/
def isInOrderIndexedLoop (validatorSet : List ValsetUpdate) (vs : ValsetUpdate) :
    Nat → Nat → Nat → Nat → Run (Nat × Nat)
  | 0, _, _, _ => .outOfFuel
  | fuel + 1, i, foundBlockCurrent, foundBlockPrevious =>
    if i < validatorSet.length then
      match validatorSet[i]? with
      | none => .indexOutOfRange
      | some p =>
        if p.Timestamp > vs.Timestamp then
          .ok (foundBlockCurrent, foundBlockPrevious)
        else
          isInOrderIndexedLoop validatorSet vs fuel (i + 1)
            (if foundBlockCurrent = 0 ∧ p.Md5Hash = vs.Md5Hash then i else foundBlockCurrent)
            (if foundBlockPrevious = 0 ∧ p.Md5Hash = vs.OldMd5Hash then i
              else foundBlockPrevious)
    else
      .ok (foundBlockCurrent, foundBlockPrevious)

/-- The function `isInOrder` with checked index reads. -/
def isInOrderIndexed (fuel : Nat) (validatorSet : List ValsetUpdate) (vs : ValsetUpdate) :
    Run Bool :=
  if vs.OldMd5Hash = "" then
    .ok true
  else
    match isInOrderIndexedLoop validatorSet vs fuel 0 0 0 with
    | .ok r => .ok (decide (r.2 < r.1))
    | .indexOutOfRange => .indexOutOfRange
    | .outOfFuel => .outOfFuel

/-- The body of the loop over `validatorSetConsumer` with checked index reads. -/
def classifyIndexed (fuel : Nat) (validatorSetProvider : List ValsetUpdate)
    (firstProviderHash : ValsetUpdate) (valset : ValsetMap) (c : Counts) (vs : ValsetUpdate) :
    Run Counts :=
  if vs.Timestamp < firstProviderHash.Timestamp then
    .ok c
  else if (valset vs.Md5Hash).isNone then
    .ok { c with missingCount := c.missingCount + 1 }
  else if !existsBeforeTimestamp validatorSetProvider vs.Md5Hash vs.Timestamp then
    .ok { c with notExistedOnProvider := c.notExistedOnProvider + 1 }
  else
    match isInOrderIndexed fuel validatorSetProvider vs with
    | .ok inOrder =>
      if !inOrder then .ok { c with outOfOrderCount := c.outOfOrderCount + 1 } else .ok c
    | .indexOutOfRange => .indexOutOfRange
    | .outOfFuel => .outOfFuel

/-- The loop over `validatorSetConsumer` with checked index reads. -/
def classifyAllIndexed (fuel : Nat) (validatorSetProvider : List ValsetUpdate)
    (firstProviderHash : ValsetUpdate) (valset : ValsetMap) :
    Counts → List ValsetUpdate → Run Counts
  | c, [] => .ok c
  | c, vs :: rest =>
    match classifyIndexed fuel validatorSetProvider firstProviderHash valset c vs with
    | .ok c' => classifyAllIndexed fuel validatorSetProvider firstProviderHash valset c' rest
    | .indexOutOfRange => .indexOutOfRange
    | .outOfFuel => .outOfFuel

/-- The classification part of `viewMissingValidator` with checked index reads, the read of
`validatorSetProvider[0]` included; `fuel` bounds the iterations of each run of the loop of
`isInOrder`. -/
def viewMissingValidatorIndexed (fuel : Nat)
    (validatorSetProvider validatorSetConsumer : List ValsetUpdate) : Run Counts :=
  match validatorSetProvider[0]? with
  | none => .indexOutOfRange
  | some firstProviderHash =>
    classifyAllIndexed fuel validatorSetProvider firstProviderHash
      (buildValset validatorSetProvider (fun _ => none)) ⟨0, 0, 0⟩ validatorSetConsumer

/-- The slice that `validatorSetProvider, err = validatorSetAll(...)` leaves in
`validatorSetProvider` inside `viewMissingValidator`: every error return of `validatorSetAll`
is `return nil, err`, and the caller only logs `err`. -/
def returnedSlice (r : Except String (List ValsetUpdate)) : List ValsetUpdate :=
  match r with
  | .ok validatorSet => validatorSet
  | .error _ => []

/-! ## A sample environment and cache -/

/-- A sample environment: every remote call and every write succeeds, a block is encoded as
the three numbers height, time and validators hash, and every chain has the one validator
with address `AB` and power 5. -/
def sampleExternal : External where
  envAddr := fun _ => "http://localhost:26657"
  envMinHeight := fun _ => "10"
  newClientFails := fun _ => false
  createFails := fun _ => false
  clientStatus := some 20
  clientBlock := fun h => some ⟨h, 10 * h, [1], []⟩
  clientValidators := fun _ => some [⟨[171], 5⟩]
  marshalBlock := fun b => some [b.Height.toNat, b.Time.toNat, b.ValidatorsHash.headD 0]
  unmarshalBlock := fun d =>
    match d with
    | [h, t, v] => some ⟨h, t, [v], []⟩
    | _ => none
  marshalEvidence := fun _ => some []
  marshalValidators := fun _ => [171, 5]
  unmarshalValidators := fun _ => some [⟨[171], 5⟩]
  md5Hex := fun s => s
  putFails := fun _ => false

/-- A sample cache: provider blocks at the heights 10 to 15 and at 17, none at 16; the
validators hash changes at height 13. -/
def sampleDB : DB := fun k =>
  if k = BlockKey "provider" 10 then some [10, 100, 1]
  else if k = BlockKey "provider" 11 then some [11, 110, 1]
  else if k = BlockKey "provider" 12 then some [12, 120, 1]
  else if k = BlockKey "provider" 13 then some [13, 130, 2]
  else if k = BlockKey "provider" 14 then some [14, 140, 2]
  else if k = BlockKey "provider" 15 then some [15, 150, 2]
  else if k = BlockKey "provider" 17 then some [17, 170, 3]
  else none

/-- The change events of the sample cache. -/
def sampleEvents : List ValsetUpdate :=
  [⟨"01", "", "AB:5", "", 10, 100⟩, ⟨"02", "01", "AB:5", "AB:5", 13, 130⟩]

/-- The sample cache after the changelog build: the validator sets of the heights 10 and 13
are memoized. -/
def sampleDBAfter : DB :=
  (sampleDB.put (validatorzKey "provider" 10) [171, 5]).put (validatorzKey "provider" 13)
    [171, 5]

/-- A sample environment with a partial node and a partial decoder: the node answers
validator-set requests at the heights 10 and 13 only, and only the bytes `[171, 5]` decode to
a validator list; everything else as in `sampleExternal`. -/
def strictExternal : External :=
  { sampleExternal with
    clientValidators := fun h => if h = 10 ∨ h = 13 then some [⟨[171], 5⟩] else none
    unmarshalValidators := fun d => if d = [171, 5] then some [⟨[171], 5⟩] else none }

/-- A sample environment in which the block of every height carries evidence and the write of
the evidence of height 16 fails, everything else as in `sampleExternal`. -/
def evidenceFailExternal : External :=
  { sampleExternal with
    clientBlock := fun h => some ⟨h, 10 * h, [1], [[9]]⟩
    marshalEvidence := fun _ => some [9]
    putFails := fun k => decide (k = EvidenceKey "provider" 16) }

/-! ## Facts about the consistency checker -/

theorem existsBeforeTimestamp_iff (P : List ValsetUpdate) (hash : String) (t : Int) :
    existsBeforeTimestamp P hash t = true ↔ ∃ p ∈ P, p.Md5Hash = hash ∧ p.Timestamp < t := by
  induction P with
  | nil => simp [existsBeforeTimestamp]
  | cons p rest ih =>
    unfold existsBeforeTimestamp
    by_cases h : p.Md5Hash = hash ∧ p.Timestamp < t
    · simp only [h, and_self, if_true, true_iff]
      exact ⟨p, List.mem_cons_self _ _, h⟩
    · rw [if_neg h, ih]
      constructor
      · rintro ⟨q, hq, hq2⟩
        exact ⟨q, List.mem_cons_of_mem _ hq, hq2⟩
      · rintro ⟨q, hq, hq2⟩
        rcases List.mem_cons.mp hq with rfl | hq
        · exact absurd hq2 h
        · exact ⟨q, hq, hq2⟩

theorem buildValset_isSome (P : List ValsetUpdate) (m : ValsetMap) (k : String) :
    (buildValset P m k).isSome = true ↔ (∃ p ∈ P, p.Md5Hash = k) ∨ (m k).isSome = true := by
  induction P generalizing m with
  | nil => simp [buildValset]
  | cons p rest ih =>
    unfold buildValset
    rw [ih]
    by_cases h : k = p.Md5Hash
    · simp [h]
    · have h' : ¬ p.Md5Hash = k := fun e => h e.symm
      simp [h, h']

theorem buildValset_isNone (P : List ValsetUpdate) (k : String) :
    (buildValset P (fun _ => none) k).isNone = true ↔ ∀ p ∈ P, p.Md5Hash ≠ k := by
  have h := buildValset_isSome P (fun _ => none) k
  cases hb : buildValset P (fun _ => none) k with
  | none =>
    rw [hb] at h
    simpa using h
  | some v =>
    rw [hb] at h
    simpa using h


theorem classifyAll_append (P : List ValsetUpdate) (first : ValsetUpdate) (valset : ValsetMap)
    (c : Counts) (xs ys : List ValsetUpdate) :
    classifyAll P first valset c (xs ++ ys)
      = classifyAll P first valset (classifyAll P first valset c xs) ys := by
  induction xs generalizing c with
  | nil => rfl
  | cons x rest ih => exact ih _

/-- C1 (as the code behaves): with provider hashes A, B, C at times tA < tB < tC and a
consumer event claiming the transition C → B at a time t with tB < t < tC, the previous hash
C is not in the scanned prefix, its index stays 0 while B is found at index 1, so `isInOrder`
returns true and the event leaves all three counts unchanged. -/
theorem out_of_order_scenario_in_order (pa pb pc e : ValsetUpdate) (c : Counts)
    (hAB : pa.Md5Hash ≠ pb.Md5Hash) (hAC : pa.Md5Hash ≠ pc.Md5Hash)
    (hBC : pb.Md5Hash ≠ pc.Md5Hash)
    (htAB : pa.Timestamp < pb.Timestamp) (_htBC : pb.Timestamp < pc.Timestamp)
    (hprev : e.OldMd5Hash = pc.Md5Hash) (hcur : e.Md5Hash = pb.Md5Hash)
    (ht1 : pb.Timestamp < e.Timestamp) (ht2 : e.Timestamp < pc.Timestamp) :
    isInOrder [pa, pb, pc] e = true ∧
    classify [pa, pb, pc] pa (buildValset [pa, pb, pc] (fun _ => none)) c e = c ∧
    viewMissingValidator [pa, pb, pc] [e] = some ⟨0, 0, 0⟩ := by
  have hin : isInOrder [pa, pb, pc] e = true := by
    unfold isInOrder
    by_cases h0 : e.OldMd5Hash = ""
    · simp [h0]
    · have h1 : ¬ pa.Timestamp > e.Timestamp := by omega
      have h2 : ¬ pb.Timestamp > e.Timestamp := by omega
      have h3 : pc.Timestamp > e.Timestamp := by omega
      have h4 : ¬ pb.Md5Hash = pc.Md5Hash := hBC
      simp [h0, isInOrderLoop, h1, h2, h3, hprev, hcur, hAB, hAC, h4]
  have hcl : ∀ c', classify [pa, pb, pc] pa (buildValset [pa, pb, pc] (fun _ => none)) c' e
      = c' := by
    intro c'
    have hex : existsBeforeTimestamp [pa, pb, pc] e.Md5Hash e.Timestamp = true :=
      (existsBeforeTimestamp_iff _ _ _).mpr ⟨pb, by simp, hcur.symm, ht1⟩
    have hnone : (buildValset [pa, pb, pc] (fun _ => none) e.Md5Hash).isNone = false := by
      rw [← Bool.not_eq_true, buildValset_isNone]
      intro h
      exact h pb (by simp) hcur.symm
    have hts : ¬ e.Timestamp < pa.Timestamp := by omega
    simp [classify, hts, hnone, hex, hin]
  exact ⟨hin, hcl c, by simp [viewMissingValidator, classifyAll, hcl]⟩

theorem out_of_order_scenario_in_order_witness :
    isInOrder [⟨"", "", "A", "", 1, 10⟩, ⟨"", "", "B", "A", 2, 20⟩, ⟨"", "", "C", "B", 3, 40⟩]
        ⟨"", "", "B", "C", 7, 30⟩ = true ∧
    classify [⟨"", "", "A", "", 1, 10⟩, ⟨"", "", "B", "A", 2, 20⟩, ⟨"", "", "C", "B", 3, 40⟩]
        ⟨"", "", "A", "", 1, 10⟩
        (buildValset
          [⟨"", "", "A", "", 1, 10⟩, ⟨"", "", "B", "A", 2, 20⟩, ⟨"", "", "C", "B", 3, 40⟩]
          (fun _ => none)) ⟨0, 0, 0⟩ ⟨"", "", "B", "C", 7, 30⟩ = ⟨0, 0, 0⟩ ∧
    viewMissingValidator
        [⟨"", "", "A", "", 1, 10⟩, ⟨"", "", "B", "A", 2, 20⟩, ⟨"", "", "C", "B", 3, 40⟩]
        [⟨"", "", "B", "C", 7, 30⟩] = some ⟨0, 0, 0⟩ :=
  out_of_order_scenario_in_order ⟨"", "", "A", "", 1, 10⟩ ⟨"", "", "B", "A", 2, 20⟩
    ⟨"", "", "C", "B", 3, 40⟩ ⟨"", "", "B", "C", 7, 30⟩ ⟨0, 0, 0⟩
    (by decide) (by decide) (by decide) (by decide) (by decide) rfl rfl (by decide) (by decide)

/-- C1 fails as stated: provider hashes A, B, C at times 10 < 20 < 40 and a consumer event
with previous hash C, hash B and time 30 satisfy every hypothesis of the claim, yet
`isInOrder` returns true and the out-of-order count stays 0. -/
theorem out_of_order_scenario_counterexample :
    ("A" ≠ "B" ∧ "A" ≠ "C" ∧ "B" ≠ "C") ∧ ((10 : Int) < 20 ∧ (20 : Int) < 30 ∧ (30 : Int) < 40) ∧
    isInOrder [⟨"", "", "A", "", 1, 10⟩, ⟨"", "", "B", "A", 2, 20⟩, ⟨"", "", "C", "B", 3, 40⟩]
        ⟨"", "", "B", "C", 7, 30⟩ ≠ false ∧
    (viewMissingValidator
        [⟨"", "", "A", "", 1, 10⟩, ⟨"", "", "B", "A", 2, 20⟩, ⟨"", "", "C", "B", 3, 40⟩]
        [⟨"", "", "B", "C", 7, 30⟩]).map Counts.outOfOrderCount = some 0 := by
  decide

/-- The same consumer event at or after the time of the provider's C event is out of order:
then C is found at index 2 and B at index 1. -/
theorem out_of_order_scenario_after_previous (pa pb pc e : ValsetUpdate)
    (hAB : pa.Md5Hash ≠ pb.Md5Hash) (hAC : pa.Md5Hash ≠ pc.Md5Hash)
    (hBC : pb.Md5Hash ≠ pc.Md5Hash) (hC : pc.Md5Hash ≠ "")
    (htAB : pa.Timestamp < pb.Timestamp) (htBC : pb.Timestamp < pc.Timestamp)
    (hprev : e.OldMd5Hash = pc.Md5Hash) (hcur : e.Md5Hash = pb.Md5Hash)
    (ht : pc.Timestamp ≤ e.Timestamp) :
    isInOrder [pa, pb, pc] e = false := by
  have h1 : ¬ pa.Timestamp > e.Timestamp := by omega
  have h2 : ¬ pb.Timestamp > e.Timestamp := by omega
  have h3 : ¬ pc.Timestamp > e.Timestamp := by omega
  have h4 : ¬ pb.Md5Hash = pc.Md5Hash := hBC
  have h5 : ¬ pc.Md5Hash = pb.Md5Hash := fun h => hBC h.symm
  simp [isInOrder, isInOrderLoop, hprev, hcur, hC, h1, h2, h3, hAB, hAC, h4, h5]

/-- C2 (code against the specified definition): on the provider sequence with content hashes
A, B, A at times 1, 2, 3, the consumer event with previous hash A, hash B and time 4 has
ip = 0 and ic = 1 in the specified test (in-order), while `isInOrder` overwrites the index 0
it found for A by the later index 2 and returns false; and the consumer event with previous
hash B, hash A and time 4 has ip = 1 and ic = 0 (out-of-order), while `isInOrder` ends with
the indices (2, 1) and returns true. -/
theorem isInOrder_differs_from_spec :
    (isInOrder [⟨"", "", "A", "", 1, 1⟩, ⟨"", "", "B", "A", 2, 2⟩, ⟨"", "", "A", "B", 3, 3⟩]
        ⟨"", "", "B", "A", 9, 4⟩ = false ∧
      isInOrderSpec [⟨"", "", "A", "", 1, 1⟩, ⟨"", "", "B", "A", 2, 2⟩, ⟨"", "", "A", "B", 3, 3⟩]
        ⟨"", "", "B", "A", 9, 4⟩ = true ∧
      isInOrderLoop ⟨"", "", "B", "A", 9, 4⟩
        [⟨"", "", "A", "", 1, 1⟩, ⟨"", "", "B", "A", 2, 2⟩, ⟨"", "", "A", "B", 3, 3⟩] 0 0 0
        = (1, 2)) ∧
    (isInOrder [⟨"", "", "A", "", 1, 1⟩, ⟨"", "", "B", "A", 2, 2⟩, ⟨"", "", "A", "B", 3, 3⟩]
        ⟨"", "", "A", "B", 9, 4⟩ = true ∧
      isInOrderSpec [⟨"", "", "A", "", 1, 1⟩, ⟨"", "", "B", "A", 2, 2⟩, ⟨"", "", "A", "B", 3, 3⟩]
        ⟨"", "", "A", "B", 9, 4⟩ = false ∧
      isInOrderLoop ⟨"", "", "A", "B", 9, 4⟩
        [⟨"", "", "A", "", 1, 1⟩, ⟨"", "", "B", "A", 2, 2⟩, ⟨"", "", "A", "B", 3, 3⟩] 0 0 0
        = (2, 1)) := by
  decide

theorem isInOrderLoop_takeWhile (vs : ValsetUpdate) (P : List ValsetUpdate) (i fc fp : Nat) :
    isInOrderLoop vs P i fc fp
      = isInOrderLoop vs (P.takeWhile (fun p => !decide (p.Timestamp > vs.Timestamp)))
          i fc fp := by
  induction P generalizing i fc fp with
  | nil => rfl
  | cons p rest ih =>
    by_cases h : p.Timestamp > vs.Timestamp
    · simp [List.takeWhile, isInOrderLoop, h]
    · simp only [List.takeWhile, h, decide_False, Bool.not_false, isInOrderLoop, if_false]
      exact ih _ _ _

theorem isInOrderLoop_findIdx (vs : ValsetUpdate) (l : List ValsetUpdate)
    (hl : ∀ p ∈ l, ¬ p.Timestamp > vs.Timestamp) (i fc fp : Nat) (hi : 1 ≤ i) :
    isInOrderLoop vs l i fc fp
      = (if fc = 0 then (l.findIdx? (fun p => decide (p.Md5Hash = vs.Md5Hash)) i).getD 0
          else fc,
         if fp = 0 then (l.findIdx? (fun p => decide (p.Md5Hash = vs.OldMd5Hash)) i).getD 0
          else fp) := by
  induction l generalizing i fc fp with
  | nil => simp only [isInOrderLoop, List.findIdx?_nil, Option.getD_none]; split <;> split <;> simp_all
  | cons p rest ih =>
    have hp : ¬ p.Timestamp > vs.Timestamp := hl p (List.mem_cons_self _ _)
    have hrest : ∀ q ∈ rest, ¬ q.Timestamp > vs.Timestamp :=
      fun q hq => hl q (List.mem_cons_of_mem _ hq)
    simp only [isInOrderLoop, hp, if_false, List.findIdx?_cons]
    rw [ih hrest (i + 1) _ _ (by omega)]
    have hi0 : i ≠ 0 := by omega
    congr 1
    · by_cases h1 : fc = 0 <;> by_cases h2 : p.Md5Hash = vs.Md5Hash <;> simp [h1, h2, hi0]
    · by_cases h1 : fp = 0 <;> by_cases h2 : p.Md5Hash = vs.OldMd5Hash <;> simp [h1, h2, hi0]

/-- Outside the case of C2 the code and the specified test agree: when the content hash of
the first event of the scanned prefix does not occur again in that prefix, `isInOrder` is
the comparison of the two first-occurrence indices. -/
theorem isInOrder_eq_spec_of_first_not_repeated (P : List ValsetUpdate) (e : ValsetUpdate)
    (h0 : e.OldMd5Hash ≠ "")
    (H : ∀ p0 rest, P.takeWhile (fun p => !decide (p.Timestamp > e.Timestamp)) = p0 :: rest →
      ∀ q ∈ rest, q.Md5Hash ≠ p0.Md5Hash) :
    isInOrder P e = isInOrderSpec P e := by
  unfold isInOrder isInOrderSpec
  rw [if_neg h0, isInOrderLoop_takeWhile]
  have hall : ∀ p ∈ P.takeWhile (fun p => !decide (p.Timestamp > e.Timestamp)),
      ¬ p.Timestamp > e.Timestamp := by
    intro p hp
    have := List.mem_takeWhile_imp hp
    simpa using this
  generalize P.takeWhile (fun p => !decide (p.Timestamp > e.Timestamp)) = pre at H hall
  cases pre with
  | nil => simp [isInOrderLoop]
  | cons p0 rest =>
    have hp0 : ¬ p0.Timestamp > e.Timestamp := hall p0 (List.mem_cons_self _ _)
    have hrest : ∀ q ∈ rest, ¬ q.Timestamp > e.Timestamp :=
      fun q hq => hall q (List.mem_cons_of_mem _ hq)
    have hidx : ∀ h : String, p0.Md5Hash = h →
        rest.findIdx? (fun p => decide (p.Md5Hash = h)) = none := by
      intro h hh
      rw [List.findIdx?_eq_none_iff]
      intro q hq
      have := H p0 rest rfl q hq
      simp only [decide_eq_false_iff_not]
      intro hq2
      exact this (hq2.trans hh.symm)
    simp only [isInOrderLoop, hp0, if_false, List.findIdx?_cons, zero_add]
    rw [isInOrderLoop_findIdx e rest hrest 1 _ _ (Nat.le_refl _)]
    have e1 : (if (0 = 0 ∧ p0.Md5Hash = e.Md5Hash) then 0 else 0) = 0 := by split <;> rfl
    have e2 : (if (0 = 0 ∧ p0.Md5Hash = e.OldMd5Hash) then 0 else 0) = 0 := by split <;> rfl
    simp only [e1, e2, if_true]
    by_cases c1 : p0.Md5Hash = e.Md5Hash <;> by_cases c2 : p0.Md5Hash = e.OldMd5Hash
    · simp [c1, c2, hidx _ c1, hidx _ c2]
    · simp [c1, c2, hidx _ c1]
    · have c3 : ¬ e.OldMd5Hash = e.Md5Hash := fun h => c1 (c2.trans h)
      simp [c1, c2, c3, hidx _ c2]
    · simp [c1, c2]

theorem classify_missing (P : List ValsetUpdate) (first : ValsetUpdate) (c : Counts)
    (e : ValsetUpdate) (h : isMissingEvent P first e = true) :
    classify P first (buildValset P (fun _ => none)) c e
      = ⟨c.missingCount + 1, c.notExistedOnProvider, c.outOfOrderCount⟩ := by
  simp only [isMissingEvent, Bool.and_eq_true, Bool.not_eq_true', decide_eq_false_iff_not,
    List.all_eq_true] at h
  have hnone : (buildValset P (fun _ => none) e.Md5Hash).isNone = true :=
    (buildValset_isNone P e.Md5Hash).mpr h.2
  simp [classify, h.1, hnone]

theorem classify_not_missing (P : List ValsetUpdate) (first : ValsetUpdate) (c : Counts)
    (e : ValsetUpdate) (h : isMissingEvent P first e = false) :
    (classify P first (buildValset P (fun _ => none)) c e).missingCount = c.missingCount := by
  unfold classify
  by_cases h1 : e.Timestamp < first.Timestamp
  · simp [h1]
  · have hnone : (buildValset P (fun _ => none) e.Md5Hash).isNone = false := by
      rw [← Bool.not_eq_true, buildValset_isNone]
      intro hall
      have : isMissingEvent P first e = true := by
        simp only [isMissingEvent, Bool.and_eq_true, Bool.not_eq_true',
          decide_eq_false_iff_not, List.all_eq_true]
        exact ⟨h1, hall⟩
      rw [h] at this
      exact Bool.false_ne_true this
    rw [if_neg h1]
    simp only [hnone, Bool.false_eq_true, if_false]
    split
    · rfl
    · split <;> rfl

theorem classifyAll_missingCount (P : List ValsetUpdate) (first : ValsetUpdate) (c : Counts)
    (C : List ValsetUpdate) :
    (classifyAll P first (buildValset P (fun _ => none)) c C).missingCount
      = c.missingCount + (C.filter (isMissingEvent P first)).length := by
  induction C generalizing c with
  | nil => simp [classifyAll]
  | cons e rest ih =>
    unfold classifyAll
    rw [ih]
    cases h : isMissingEvent P first e with
    | true =>
      rw [classify_missing P first c e h, List.filter_cons_of_pos h, List.length_cons]
      dsimp only
      omega
    | false =>
      rw [classify_not_missing P first c e h, List.filter_cons_of_neg (by simp [h])]

/-- C3: for a non-empty provider sequence, a consumer event that is not before the provider
epoch and whose content hash no provider event carries adds exactly one to the missing count
and nothing to the other two counts, wherever it stands in the consumer sequence; and the
reported missing count is the number of such consumer events. -/
theorem missing_classification (P C : List ValsetUpdate) (hP : P ≠ []) :
    ∃ first r, P.head? = some first ∧ viewMissingValidator P C = some r ∧
      r.missingCount = (C.filter (fun e => !decide (e.Timestamp < first.Timestamp) &&
        P.all (fun p => !decide (p.Md5Hash = e.Md5Hash)))).length ∧
      (∀ (c : Counts) (e : ValsetUpdate), ¬ e.Timestamp < first.Timestamp →
        (∀ p ∈ P, p.Md5Hash ≠ e.Md5Hash) →
        classify P first (buildValset P (fun _ => none)) c e
          = ⟨c.missingCount + 1, c.notExistedOnProvider, c.outOfOrderCount⟩) ∧
      (∀ (C₁ C₂ : List ValsetUpdate) (e : ValsetUpdate), C = C₁ ++ e :: C₂ →
        ¬ e.Timestamp < first.Timestamp → (∀ p ∈ P, p.Md5Hash ≠ e.Md5Hash) →
        ∃ r₁ r₂, viewMissingValidator P C₁ = some r₁ ∧
          viewMissingValidator P (C₁ ++ [e]) = some r₂ ∧
          r₂ = ⟨r₁.missingCount + 1, r₁.notExistedOnProvider, r₁.outOfOrderCount⟩) := by
  cases P with
  | nil => exact absurd rfl hP
  | cons first P' =>
    have hmiss : ∀ (c : Counts) (e : ValsetUpdate), ¬ e.Timestamp < first.Timestamp →
        (∀ p ∈ first :: P', p.Md5Hash ≠ e.Md5Hash) →
        classify (first :: P') first (buildValset (first :: P') (fun _ => none)) c e
          = ⟨c.missingCount + 1, c.notExistedOnProvider, c.outOfOrderCount⟩ := by
      intro c e h1 h2
      apply classify_missing
      simp only [isMissingEvent, Bool.and_eq_true, Bool.not_eq_true', decide_eq_false_iff_not,
        List.all_eq_true]
      exact ⟨h1, h2⟩
    refine ⟨first, _, rfl, rfl, ?_, hmiss, ?_⟩
    · have := classifyAll_missingCount (first :: P') first ⟨0, 0, 0⟩ C
      simpa [isMissingEvent] using this
    · intro C₁ C₂ e _ h1 h2
      refine ⟨_, _, rfl, rfl, ?_⟩
      rw [classifyAll_append]
      exact hmiss _ e h1 h2

theorem missing_classification_witness :
    ∃ first r, ([⟨"", "", "A", "", 1, 10⟩, ⟨"", "", "B", "A", 2, 20⟩] :
        List ValsetUpdate).head? = some first ∧
      viewMissingValidator [⟨"", "", "A", "", 1, 10⟩, ⟨"", "", "B", "A", 2, 20⟩]
        [⟨"", "", "A", "", 1, 15⟩, ⟨"", "", "H", "A", 2, 25⟩] = some r ∧
      r.missingCount = (([⟨"", "", "A", "", 1, 15⟩, ⟨"", "", "H", "A", 2, 25⟩] :
        List ValsetUpdate).filter (fun e => !decide (e.Timestamp < first.Timestamp) &&
        ([⟨"", "", "A", "", 1, 10⟩, ⟨"", "", "B", "A", 2, 20⟩] : List ValsetUpdate).all
          (fun p => !decide (p.Md5Hash = e.Md5Hash)))).length ∧
      (∀ (c : Counts) (e : ValsetUpdate), ¬ e.Timestamp < first.Timestamp →
        (∀ p ∈ ([⟨"", "", "A", "", 1, 10⟩, ⟨"", "", "B", "A", 2, 20⟩] : List ValsetUpdate),
          p.Md5Hash ≠ e.Md5Hash) →
        classify [⟨"", "", "A", "", 1, 10⟩, ⟨"", "", "B", "A", 2, 20⟩] first
          (buildValset [⟨"", "", "A", "", 1, 10⟩, ⟨"", "", "B", "A", 2, 20⟩] (fun _ => none)) c e
          = ⟨c.missingCount + 1, c.notExistedOnProvider, c.outOfOrderCount⟩) ∧
      (∀ (C₁ C₂ : List ValsetUpdate) (e : ValsetUpdate),
        [⟨"", "", "A", "", 1, 15⟩, ⟨"", "", "H", "A", 2, 25⟩] = C₁ ++ e :: C₂ →
        ¬ e.Timestamp < first.Timestamp →
        (∀ p ∈ ([⟨"", "", "A", "", 1, 10⟩, ⟨"", "", "B", "A", 2, 20⟩] : List ValsetUpdate),
          p.Md5Hash ≠ e.Md5Hash) →
        ∃ r₁ r₂, viewMissingValidator [⟨"", "", "A", "", 1, 10⟩, ⟨"", "", "B", "A", 2, 20⟩] C₁
            = some r₁ ∧
          viewMissingValidator [⟨"", "", "A", "", 1, 10⟩, ⟨"", "", "B", "A", 2, 20⟩] (C₁ ++ [e])
            = some r₂ ∧
          r₂ = ⟨r₁.missingCount + 1, r₁.notExistedOnProvider, r₁.outOfOrderCount⟩) :=
  missing_classification [⟨"", "", "A", "", 1, 10⟩, ⟨"", "", "B", "A", 2, 20⟩]
    [⟨"", "", "A", "", 1, 15⟩, ⟨"", "", "H", "A", 2, 25⟩] (by decide)


/-- C4: for a non-empty provider sequence and a consumer event that is not before the
provider epoch and whose content hash occurs on the provider, the event is counted as
not-yet-existed exactly when `existsBeforeTimestamp` is false, that is when no provider event
has its hash together with a strictly earlier timestamp (an equal timestamp does not count);
in particular it is counted when every provider event with its hash is not earlier than it. -/
theorem not_yet_existed_classification (P : List ValsetUpdate) (e : ValsetUpdate) (c : Counts)
    (hP : P ≠ []) (hts : ∀ first, P.head? = some first → ¬ e.Timestamp < first.Timestamp)
    (hin : ∃ p ∈ P, p.Md5Hash = e.Md5Hash) :
    ∃ first, P.head? = some first ∧
      (classify P first (buildValset P (fun _ => none)) c e
          = ⟨c.missingCount, c.notExistedOnProvider + 1, c.outOfOrderCount⟩
        ↔ existsBeforeTimestamp P e.Md5Hash e.Timestamp = false) ∧
      ((classify P first (buildValset P (fun _ => none)) c e).notExistedOnProvider
          = c.notExistedOnProvider + 1
        ↔ existsBeforeTimestamp P e.Md5Hash e.Timestamp = false) ∧
      (existsBeforeTimestamp P e.Md5Hash e.Timestamp = false
        ↔ ∀ p ∈ P, p.Md5Hash = e.Md5Hash → e.Timestamp ≤ p.Timestamp) ∧
      ((∀ p ∈ P, p.Md5Hash = e.Md5Hash → e.Timestamp ≤ p.Timestamp) →
        classify P first (buildValset P (fun _ => none)) c e
          = ⟨c.missingCount, c.notExistedOnProvider + 1, c.outOfOrderCount⟩) := by
  cases P with
  | nil => exact absurd rfl hP
  | cons first P' =>
    have h1 : ¬ e.Timestamp < first.Timestamp := hts first rfl
    have hnone : (buildValset (first :: P') (fun _ => none) e.Md5Hash).isNone = false := by
      rw [← Bool.not_eq_true, buildValset_isNone]
      intro hall
      obtain ⟨p, hp, hpe⟩ := hin
      exact hall p hp hpe
    have hiff : existsBeforeTimestamp (first :: P') e.Md5Hash e.Timestamp = false
        ↔ ∀ p ∈ first :: P', p.Md5Hash = e.Md5Hash → e.Timestamp ≤ p.Timestamp := by
      rw [← Bool.not_eq_true, existsBeforeTimestamp_iff]
      constructor
      · intro h p hp hpe
        by_contra hlt
        exact h ⟨p, hp, hpe, by omega⟩
      · rintro h ⟨p, hp, hpe, hlt⟩
        have := h p hp hpe
        omega
    have hcl : classify (first :: P') first (buildValset (first :: P') (fun _ => none)) c e
        = if existsBeforeTimestamp (first :: P') e.Md5Hash e.Timestamp = true then
            (if isInOrder (first :: P') e = true then c
              else ⟨c.missingCount, c.notExistedOnProvider, c.outOfOrderCount + 1⟩)
          else ⟨c.missingCount, c.notExistedOnProvider + 1, c.outOfOrderCount⟩ := by
      unfold classify
      rw [if_neg h1]
      simp only [hnone, Bool.false_eq_true, if_false]
      cases existsBeforeTimestamp (first :: P') e.Md5Hash e.Timestamp <;>
        cases isInOrder (first :: P') e <;> simp
    refine ⟨first, rfl, ?_, ?_, hiff, ?_⟩
    · rw [hcl]
      cases hx : existsBeforeTimestamp (first :: P') e.Md5Hash e.Timestamp with
      | false => simp
      | true =>
        cases isInOrder (first :: P') e with
        | true =>
          simp only [if_true, Bool.true_eq_false, iff_false]
          intro h
          have := congrArg Counts.notExistedOnProvider h
          simp at this
        | false =>
          simp only [if_true, Bool.false_eq_true, if_false, Bool.true_eq_false, iff_false]
          intro h
          have := congrArg Counts.notExistedOnProvider h
          simp at this
    · rw [hcl]
      cases hx : existsBeforeTimestamp (first :: P') e.Md5Hash e.Timestamp with
      | false => simp
      | true => cases isInOrder (first :: P') e <;> simp
    · intro h
      rw [hcl, hiff.mpr h]
      simp

theorem not_yet_existed_classification_witness :
    ∃ first, ([⟨"", "", "A", "", 1, 10⟩, ⟨"", "", "H", "A", 2, 20⟩] :
        List ValsetUpdate).head? = some first ∧
      (classify [⟨"", "", "A", "", 1, 10⟩, ⟨"", "", "H", "A", 2, 20⟩] first
          (buildValset [⟨"", "", "A", "", 1, 10⟩, ⟨"", "", "H", "A", 2, 20⟩] (fun _ => none))
          ⟨0, 0, 0⟩ ⟨"", "", "H", "A", 5, 15⟩
          = ⟨0, 0 + 1, 0⟩
        ↔ existsBeforeTimestamp [⟨"", "", "A", "", 1, 10⟩, ⟨"", "", "H", "A", 2, 20⟩] "H" 15
          = false) ∧
      ((classify [⟨"", "", "A", "", 1, 10⟩, ⟨"", "", "H", "A", 2, 20⟩] first
          (buildValset [⟨"", "", "A", "", 1, 10⟩, ⟨"", "", "H", "A", 2, 20⟩] (fun _ => none))
          ⟨0, 0, 0⟩ ⟨"", "", "H", "A", 5, 15⟩).notExistedOnProvider = 0 + 1
        ↔ existsBeforeTimestamp [⟨"", "", "A", "", 1, 10⟩, ⟨"", "", "H", "A", 2, 20⟩] "H" 15
          = false) ∧
      (existsBeforeTimestamp [⟨"", "", "A", "", 1, 10⟩, ⟨"", "", "H", "A", 2, 20⟩] "H" 15
          = false
        ↔ ∀ p ∈ ([⟨"", "", "A", "", 1, 10⟩, ⟨"", "", "H", "A", 2, 20⟩] : List ValsetUpdate),
          p.Md5Hash = "H" → (15 : Int) ≤ p.Timestamp) ∧
      ((∀ p ∈ ([⟨"", "", "A", "", 1, 10⟩, ⟨"", "", "H", "A", 2, 20⟩] : List ValsetUpdate),
          p.Md5Hash = "H" → (15 : Int) ≤ p.Timestamp) →
        classify [⟨"", "", "A", "", 1, 10⟩, ⟨"", "", "H", "A", 2, 20⟩] first
          (buildValset [⟨"", "", "A", "", 1, 10⟩, ⟨"", "", "H", "A", 2, 20⟩] (fun _ => none))
          ⟨0, 0, 0⟩ ⟨"", "", "H", "A", 5, 15⟩
          = ⟨0, 0 + 1, 0⟩) :=
  not_yet_existed_classification [⟨"", "", "A", "", 1, 10⟩, ⟨"", "", "H", "A", 2, 20⟩]
    ⟨"", "", "H", "A", 5, 15⟩ ⟨0, 0, 0⟩ (by decide)
    (by intro first h; cases h; decide) ⟨⟨"", "", "H", "A", 2, 20⟩, by decide, rfl⟩

theorem classifyAll_filter_epoch (P : List ValsetUpdate) (first : ValsetUpdate)
    (valset : ValsetMap) (c : Counts) (C : List ValsetUpdate) :
    classifyAll P first valset c C
      = classifyAll P first valset c
          (C.filter (fun e => !decide (e.Timestamp < first.Timestamp))) := by
  induction C generalizing c with
  | nil => rfl
  | cons e rest ih =>
    by_cases h : e.Timestamp < first.Timestamp
    · have hc : classify P first valset c e = c := by simp [classify, h]
      rw [List.filter_cons_of_neg (by simp [h])]
      show classifyAll P first valset (classify P first valset c e) rest = _
      rw [hc]
      exact ih c
    · rw [List.filter_cons_of_pos (by simp [h])]
      exact ih _

/-- C5: for a non-empty provider sequence, a consumer event strictly before the timestamp of
the provider's first event changes none of the three counts, and the counts computed for a
consumer sequence equal the counts computed for it with all such events removed. -/
theorem epoch_exclusion (P C : List ValsetUpdate) (hP : P ≠ []) :
    ∃ first, P.head? = some first ∧
      (∀ (c : Counts) (e : ValsetUpdate), e.Timestamp < first.Timestamp →
        classify P first (buildValset P (fun _ => none)) c e = c) ∧
      viewMissingValidator P C
        = viewMissingValidator P (C.filter (fun e => !decide (e.Timestamp < first.Timestamp))) ∧
      (viewMissingValidator P C).isSome = true := by
  cases P with
  | nil => exact absurd rfl hP
  | cons first P' =>
    refine ⟨first, rfl, ?_, ?_, rfl⟩
    · intro c e h
      simp [classify, h]
    · show some _ = some _
      rw [classifyAll_filter_epoch]

theorem epoch_exclusion_witness :
    ∃ first, ([⟨"", "", "A", "", 1, 10⟩, ⟨"", "", "B", "A", 2, 20⟩] :
        List ValsetUpdate).head? = some first ∧
      (∀ (c : Counts) (e : ValsetUpdate), e.Timestamp < first.Timestamp →
        classify [⟨"", "", "A", "", 1, 10⟩, ⟨"", "", "B", "A", 2, 20⟩] first
          (buildValset [⟨"", "", "A", "", 1, 10⟩, ⟨"", "", "B", "A", 2, 20⟩] (fun _ => none))
          c e = c) ∧
      viewMissingValidator [⟨"", "", "A", "", 1, 10⟩, ⟨"", "", "B", "A", 2, 20⟩]
          [⟨"", "", "Q", "", 1, 5⟩, ⟨"", "", "H", "Q", 2, 25⟩]
        = viewMissingValidator [⟨"", "", "A", "", 1, 10⟩, ⟨"", "", "B", "A", 2, 20⟩]
          (([⟨"", "", "Q", "", 1, 5⟩, ⟨"", "", "H", "Q", 2, 25⟩] : List ValsetUpdate).filter
            (fun e => !decide (e.Timestamp < first.Timestamp))) ∧
      (viewMissingValidator [⟨"", "", "A", "", 1, 10⟩, ⟨"", "", "B", "A", 2, 20⟩]
          [⟨"", "", "Q", "", 1, 5⟩, ⟨"", "", "H", "Q", 2, 25⟩]).isSome = true :=
  epoch_exclusion [⟨"", "", "A", "", 1, 10⟩, ⟨"", "", "B", "A", 2, 20⟩]
    [⟨"", "", "Q", "", 1, 5⟩, ⟨"", "", "H", "Q", 2, 25⟩] (by decide)


/-- C6: provider events with (content hash, previous content hash) = (X, ""), (Y, X), (Z, Y)
and consumer events (X, ""), (Y, X), (W, Y), the four hashes pairwise distinct and non-empty,
timestamps strictly increasing inside each sequence and the consumer's X and Y events strictly
after the provider's: the check reports missing = 1, not-yet-existed = 0, out-of-order = 0;
the X and Y events are in order and the W event is the missing one. -/
theorem end_to_end_scenario (X Y Z W : String)
    (v₁ v₂ v₃ v₄ v₅ v₆ o₁ o₂ o₃ o₄ o₅ o₆ : String) (h₁ h₂ h₃ h₄ h₅ h₆ : Int)
    (tX tY tZ sX sY sW : Int)
    (hXY : X ≠ Y) (hXZ : X ≠ Z) (hXW : X ≠ W) (hYZ : Y ≠ Z) (hYW : Y ≠ W) (hZW : Z ≠ W)
    (hX : X ≠ "") (_hY : Y ≠ "") (_hZ : Z ≠ "") (_hW : W ≠ "")
    (hp₁ : tX < tY) (_hp₂ : tY < tZ) (_hc₁ : sX < sY) (_hc₂ : sY < sW)
    (hXt : tX < sX) (hYt : tY < sY) (_hWt : ¬ sW < tX) :
    viewMissingValidator
        [⟨v₁, o₁, X, "", h₁, tX⟩, ⟨v₂, o₂, Y, X, h₂, tY⟩, ⟨v₃, o₃, Z, Y, h₃, tZ⟩]
        [⟨v₄, o₄, X, "", h₄, sX⟩, ⟨v₅, o₅, Y, X, h₅, sY⟩, ⟨v₆, o₆, W, Y, h₆, sW⟩]
      = some ⟨1, 0, 0⟩ ∧
    isInOrder [⟨v₁, o₁, X, "", h₁, tX⟩, ⟨v₂, o₂, Y, X, h₂, tY⟩, ⟨v₃, o₃, Z, Y, h₃, tZ⟩]
        ⟨v₄, o₄, X, "", h₄, sX⟩ = true ∧
    isInOrder [⟨v₁, o₁, X, "", h₁, tX⟩, ⟨v₂, o₂, Y, X, h₂, tY⟩, ⟨v₃, o₃, Z, Y, h₃, tZ⟩]
        ⟨v₅, o₅, Y, X, h₅, sY⟩ = true ∧
    (∀ c : Counts,
      classify [⟨v₁, o₁, X, "", h₁, tX⟩, ⟨v₂, o₂, Y, X, h₂, tY⟩, ⟨v₃, o₃, Z, Y, h₃, tZ⟩]
        ⟨v₁, o₁, X, "", h₁, tX⟩
        (buildValset
          [⟨v₁, o₁, X, "", h₁, tX⟩, ⟨v₂, o₂, Y, X, h₂, tY⟩, ⟨v₃, o₃, Z, Y, h₃, tZ⟩]
          (fun _ => none)) c ⟨v₆, o₆, W, Y, h₆, sW⟩
        = ⟨c.missingCount + 1, c.notExistedOnProvider, c.outOfOrderCount⟩) := by
  have hYX : ¬ Y = X := fun h => hXY h.symm
  have hZX : ¬ Z = X := fun h => hXZ h.symm
  have hZY : ¬ Z = Y := fun h => hYZ h.symm
  have hWX : ¬ W = X := fun h => hXW h.symm
  have hWY : ¬ W = Y := fun h => hYW h.symm
  have hWZ : ¬ W = Z := fun h => hZW h.symm
  have ordX : isInOrder
      [⟨v₁, o₁, X, "", h₁, tX⟩, ⟨v₂, o₂, Y, X, h₂, tY⟩, ⟨v₃, o₃, Z, Y, h₃, tZ⟩]
      ⟨v₄, o₄, X, "", h₄, sX⟩ = true := by
    simp [isInOrder]
  have ordY : isInOrder
      [⟨v₁, o₁, X, "", h₁, tX⟩, ⟨v₂, o₂, Y, X, h₂, tY⟩, ⟨v₃, o₃, Z, Y, h₃, tZ⟩]
      ⟨v₅, o₅, Y, X, h₅, sY⟩ = true := by
    have a1 : ¬ tX > sY := by omega
    have a2 : ¬ tY > sY := by omega
    by_cases a3 : tZ > sY
    · simp [isInOrder, isInOrderLoop, hX, a1, a2, a3, hXY, hYX]
    · simp [isInOrder, isInOrderLoop, hX, a1, a2, a3, hXY, hYX, hZX, hZY]
  have exX : existsBeforeTimestamp
      [⟨v₁, o₁, X, "", h₁, tX⟩, ⟨v₂, o₂, Y, X, h₂, tY⟩, ⟨v₃, o₃, Z, Y, h₃, tZ⟩] X sX = true :=
    (existsBeforeTimestamp_iff _ _ _).mpr ⟨⟨v₁, o₁, X, "", h₁, tX⟩, by simp, rfl, hXt⟩
  have exY : existsBeforeTimestamp
      [⟨v₁, o₁, X, "", h₁, tX⟩, ⟨v₂, o₂, Y, X, h₂, tY⟩, ⟨v₃, o₃, Z, Y, h₃, tZ⟩] Y sY = true :=
    (existsBeforeTimestamp_iff _ _ _).mpr ⟨⟨v₂, o₂, Y, X, h₂, tY⟩, by simp, rfl, hYt⟩
  have b1 : ¬ sX < tX := by omega
  have b2 : ¬ sY < tX := by omega
  have b3 : ¬ sW < tX := by omega
  have clW : ∀ c : Counts,
      classify [⟨v₁, o₁, X, "", h₁, tX⟩, ⟨v₂, o₂, Y, X, h₂, tY⟩, ⟨v₃, o₃, Z, Y, h₃, tZ⟩]
        ⟨v₁, o₁, X, "", h₁, tX⟩
        (buildValset
          [⟨v₁, o₁, X, "", h₁, tX⟩, ⟨v₂, o₂, Y, X, h₂, tY⟩, ⟨v₃, o₃, Z, Y, h₃, tZ⟩]
          (fun _ => none)) c ⟨v₆, o₆, W, Y, h₆, sW⟩
        = ⟨c.missingCount + 1, c.notExistedOnProvider, c.outOfOrderCount⟩ := by
    intro c
    simp [classify, buildValset, b3, hWX, hWY, hWZ]
  refine ⟨?_, ordX, ordY, clW⟩
  simp only [viewMissingValidator, classifyAll, clW]
  simp [classify, buildValset, b1, b2, hXY, hYX, hXZ, hYZ, exX, exY, ordX, ordY]

theorem end_to_end_scenario_witness :
    viewMissingValidator
        [⟨"p1", "", "X", "", 100, 1000⟩, ⟨"p2", "p1", "Y", "X", 200, 2000⟩,
          ⟨"p3", "p2", "Z", "Y", 300, 3000⟩]
        [⟨"c1", "", "X", "", 50, 1500⟩, ⟨"c2", "c1", "Y", "X", 150, 2500⟩,
          ⟨"c3", "c2", "W", "Y", 250, 3500⟩]
      = some ⟨1, 0, 0⟩ ∧
    isInOrder [⟨"p1", "", "X", "", 100, 1000⟩, ⟨"p2", "p1", "Y", "X", 200, 2000⟩,
          ⟨"p3", "p2", "Z", "Y", 300, 3000⟩]
        ⟨"c1", "", "X", "", 50, 1500⟩ = true ∧
    isInOrder [⟨"p1", "", "X", "", 100, 1000⟩, ⟨"p2", "p1", "Y", "X", 200, 2000⟩,
          ⟨"p3", "p2", "Z", "Y", 300, 3000⟩]
        ⟨"c2", "c1", "Y", "X", 150, 2500⟩ = true ∧
    (∀ c : Counts,
      classify [⟨"p1", "", "X", "", 100, 1000⟩, ⟨"p2", "p1", "Y", "X", 200, 2000⟩,
          ⟨"p3", "p2", "Z", "Y", 300, 3000⟩]
        ⟨"p1", "", "X", "", 100, 1000⟩
        (buildValset
          [⟨"p1", "", "X", "", 100, 1000⟩, ⟨"p2", "p1", "Y", "X", 200, 2000⟩,
            ⟨"p3", "p2", "Z", "Y", 300, 3000⟩]
          (fun _ => none)) c ⟨"c3", "c2", "W", "Y", 250, 3500⟩
        = ⟨c.missingCount + 1, c.notExistedOnProvider, c.outOfOrderCount⟩) :=
  end_to_end_scenario "X" "Y" "Z" "W" "p1" "p2" "p3" "c1" "c2" "c3" "" "p1" "p2" "" "c1" "c2"
    100 200 300 50 150 250 1000 2000 3000 1500 2500 3500
    (by decide) (by decide) (by decide) (by decide) (by decide) (by decide)
    (by decide) (by decide) (by decide) (by decide)
    (by decide) (by decide) (by decide) (by decide) (by decide) (by decide) (by decide)

/-! ## Facts about the content hash -/

theorem render_foldl (vs : List Validator) (init : List String) :
    vs.foldl (fun valset val => valset ++ [renderValidator val]) init
      = init ++ vs.map renderValidator := by
  induction vs generalizing init with
  | nil => simp
  | cons v rest ih => simp [List.foldl_cons, ih]

/-- C7: the content hash does not depend on the order of the validators: for every
permutation vs' of vs, `getValsetHash` gives the same value, and that value is the MD5 digest
of the sorted `address:power` renderings joined with `;`. -/
theorem getValsetHash_perm (md5Hex : String → String) (vs vs' : List Validator)
    (h : vs'.Perm vs) :
    getValsetHash md5Hex vs' = getValsetHash md5Hex vs ∧
    getValsetHash md5Hex vs
      = md5Hex (";".intercalate ((vs.map renderValidator).insertionSort (· ≤ ·))) ∧
    ((vs.map renderValidator).insertionSort (· ≤ ·)).Sorted (· ≤ ·) ∧
    ((vs.map renderValidator).insertionSort (· ≤ ·)).Perm (vs.map renderValidator) := by
  have key : ∀ l : List Validator, getValsetHash md5Hex l
      = md5Hex (";".intercalate ((l.map renderValidator).insertionSort (· ≤ ·))) := by
    intro l
    simp [getValsetHash, render_foldl]
  refine ⟨?_, key vs, List.sorted_insertionSort _ _, List.perm_insertionSort _ _⟩
  rw [key, key]
  have hp : (vs'.map renderValidator).Perm (vs.map renderValidator) := h.map _
  have hs : ((vs'.map renderValidator).insertionSort (· ≤ ·))
      = ((vs.map renderValidator).insertionSort (· ≤ ·)) := by
    apply List.eq_of_perm_of_sorted _ (List.sorted_insertionSort _ _)
      (List.sorted_insertionSort _ _)
    exact ((List.perm_insertionSort _ _).trans hp).trans (List.perm_insertionSort _ _).symm
  rw [hs]

theorem getValsetHash_perm_witness :
    getValsetHash (fun s => s) [⟨[18], 7⟩, ⟨[171], 5⟩]
      = getValsetHash (fun s => s) [⟨[171], 5⟩, ⟨[18], 7⟩] ∧
    getValsetHash (fun s => s) [⟨[171], 5⟩, ⟨[18], 7⟩]
      = (fun s => s) (";".intercalate
          ((([⟨[171], 5⟩, ⟨[18], 7⟩] : List Validator).map renderValidator).insertionSort
            (· ≤ ·))) ∧
    ((([⟨[171], 5⟩, ⟨[18], 7⟩] : List Validator).map renderValidator).insertionSort
        (· ≤ ·)).Sorted (· ≤ ·) ∧
    ((([⟨[171], 5⟩, ⟨[18], 7⟩] : List Validator).map renderValidator).insertionSort
        (· ≤ ·)).Perm (([⟨[171], 5⟩, ⟨[18], 7⟩] : List Validator).map renderValidator) :=
  getValsetHash_perm (fun s => s) [⟨[171], 5⟩, ⟨[18], 7⟩] [⟨[18], 7⟩, ⟨[171], 5⟩]
    (List.Perm.swap _ _ _)

/-! ## Facts about the changelog builder -/

theorem validatorSetLoop_chained (x : External) (chain : String) (lb : Nat) (fuel : Nat) :
    ∀ (i : Nat) (db : DB) (lv lm : String) (acc evs : List ValsetUpdate) (db' : DB),
      validatorSetLoop x chain lb fuel i db lv lm acc = some (.ok evs, db') →
      ∃ tail, evs = acc ++ tail ∧ chainedFrom lv lm tail := by
  induction fuel with
  | zero =>
    intro i db lv lm acc evs db' h
    simp [validatorSetLoop] at h
  | succ fuel ih =>
    intro i db lv lm acc evs db' h
    unfold validatorSetLoop at h
    split at h
    · dsimp only at h
      split at h
      · simp only [Option.some.injEq, Prod.mk.injEq, Except.ok.injEq] at h
        exact ⟨[], by simp [h.1], trivial⟩
      · split at h
        · simp at h
        · split at h
          · split at h
            · simp at h
            · obtain ⟨tail, ht, hc⟩ := ih _ _ _ _ _ _ _ h
              rw [List.append_assoc, List.singleton_append] at ht
              exact ⟨_, ht, ⟨rfl, rfl, hc⟩⟩
          · exact ih _ _ _ _ _ _ _ h
    · simp only [Option.some.injEq, Prod.mk.injEq, Except.ok.injEq] at h
      exact ⟨[], by simp [h.1], trivial⟩

theorem chainedFrom_getElem (lv lm : String) (evs : List ValsetUpdate)
    (h : chainedFrom lv lm evs) :
    (∀ a, evs.head? = some a → a.OldValidatorsHash = lv ∧ a.OldMd5Hash = lm) ∧
    (∀ (k : Nat) (a b : ValsetUpdate), evs[k]? = some a → evs[k + 1]? = some b →
      b.OldValidatorsHash = a.ValidatorsHash ∧ b.OldMd5Hash = a.Md5Hash) := by
  induction evs generalizing lv lm with
  | nil => simp
  | cons e rest ih =>
    obtain ⟨h1, h2, h3⟩ := h
    have ih' := ih _ _ h3
    constructor
    · intro a ha
      simp only [List.head?_cons, Option.some.injEq] at ha
      subst ha
      exact ⟨h1, h2⟩
    · intro k a b ha hb
      cases k with
      | zero =>
        simp only [List.getElem?_cons_zero, Option.some.injEq] at ha
        subst ha
        simp only [zero_add, List.getElem?_cons_succ] at hb
        apply ih'.1
        rw [List.head?_eq_getElem?]
        exact hb
      | succ k =>
        simp only [List.getElem?_cons_succ] at ha hb
        exact ih'.2 k a b ha hb

/-- C8: whenever `validatorSetAll` returns a sequence of events without error, the first
event has empty previous hashes (chain-native and content), and every later event carries the
chain-native hash and the content hash of the event before it as its previous hashes. -/
theorem changelog_hash_chaining (x : External) (fuel : Nat) (db db' : DB) (chain : String)
    (latestBlock : Option Nat) (evs : List ValsetUpdate)
    (h : validatorSetAll x fuel db chain latestBlock = some (.ok evs, db')) :
    (∀ a, evs.head? = some a → a.OldValidatorsHash = "" ∧ a.OldMd5Hash = "") ∧
    (∀ (k : Nat) (a b : ValsetUpdate), evs[k]? = some a → evs[k + 1]? = some b →
      b.OldValidatorsHash = a.ValidatorsHash ∧ b.OldMd5Hash = a.Md5Hash) := by
  apply chainedFrom_getElem
  unfold validatorSetAll at h
  simp only at h
  split at h
  · simp at h
  · split at h
    · simp at h
    · split at h
      · simp at h
      · split at h
        · simp at h
        · split at h
          · simp at h
          · split at h
            · simp at h
            · split at h
              · simp at h
              · obtain ⟨tail, ht, hc⟩ := validatorSetLoop_chained _ _ _ _ _ _ _ _ _ _ _ h
                simp only [List.nil_append] at ht
                rw [ht]
                exact hc

theorem changelog_hash_chaining_witness :
    validatorSetAll sampleExternal 100 sampleDB "provider" (some 20)
      = some (.ok sampleEvents, sampleDBAfter) ∧
    (∀ a, sampleEvents.head? = some a → a.OldValidatorsHash = "" ∧ a.OldMd5Hash = "") ∧
    (∀ (k : Nat) (a b : ValsetUpdate), sampleEvents[k]? = some a →
      sampleEvents[k + 1]? = some b →
      b.OldValidatorsHash = a.ValidatorsHash ∧ b.OldMd5Hash = a.Md5Hash) :=
  ⟨rfl, changelog_hash_chaining sampleExternal 100 sampleDB sampleDBAfter "provider" (some 20)
    sampleEvents rfl⟩

theorem validatorzKey_ne_BlockKey (name : String) (h : Int) (j : Nat) :
    validatorzKey name h ≠ BlockKey name j := by
  intro heq
  have hd := congrArg String.data heq
  simp only [validatorzKey, BlockKey, String.data_append, List.append_assoc,
    List.append_cancel_left_eq] at hd
  have h2 : (":validatorz:".data ++ (toString h).data)[1]? = (":block:".data ++ (toString j).data)[1]? := by
    rw [hd]
  simp at h2


theorem GetValidatorsAtHeight_frame (x : External) (name : String) (db : DB) (h : Int)
    (k : String) (hk : k ≠ validatorzKey name h) :
    (GetValidatorsAtHeight x name db h).2 k = db k := by
  unfold GetValidatorsAtHeight
  dsimp only
  cases db (validatorzKey name h) with
  | some data =>
    dsimp only
    cases x.unmarshalValidators data <;> rfl
  | none =>
    dsimp only
    cases x.clientValidators h with
    | none => rfl
    | some vals =>
      dsimp only
      have hput : (if x.putFails (validatorzKey name h) = true then db
          else db.put (validatorzKey name h) (x.marshalValidators vals)) k = db k := by
        split
        · rfl
        · simp [DB.put, hk]
      cases x.unmarshalValidators (x.marshalValidators vals) <;> exact hput

theorem GetValidatorsAtHeight_blockKey (x : External) (name : String) (db : DB) (h : Int)
    (j : Nat) :
    (GetValidatorsAtHeight x name db h).2 (BlockKey name j) = db (BlockKey name j) :=
  GetValidatorsAtHeight_frame x name db h _ (fun e => validatorzKey_ne_BlockKey name h j e.symm)

theorem GetValidatorsAtHeight_congr (x : External) (name : String) (db₁ db₂ : DB) (h : Int)
    (hk : db₂ (validatorzKey name h) = db₁ (validatorzKey name h)) :
    (GetValidatorsAtHeight x name db₂ h).1 = (GetValidatorsAtHeight x name db₁ h).1 ∧
    ∀ k, db₂ k = db₁ k →
      (GetValidatorsAtHeight x name db₂ h).2 k = (GetValidatorsAtHeight x name db₁ h).2 k := by
  unfold GetValidatorsAtHeight
  dsimp only
  rw [hk]
  cases db₁ (validatorzKey name h) with
  | some data =>
    dsimp only
    cases x.unmarshalValidators data <;> exact ⟨rfl, fun k hk => hk⟩
  | none =>
    dsimp only
    cases x.clientValidators h with
    | none => exact ⟨rfl, fun k hk => hk⟩
    | some vals =>
      dsimp only
      have hput : ∀ k, db₂ k = db₁ k →
          (if x.putFails (validatorzKey name h) = true then db₂
            else db₂.put (validatorzKey name h) (x.marshalValidators vals)) k
          = (if x.putFails (validatorzKey name h) = true then db₁
            else db₁.put (validatorzKey name h) (x.marshalValidators vals)) k := by
        intro k hk
        split
        · exact hk
        · simp only [DB.put]
          split
          · rfl
          · exact hk
      cases x.unmarshalValidators (x.marshalValidators vals) <;> exact ⟨rfl, hput⟩

/-- Below a gap at height `g` the loop does the same for every upper bound that reaches
`g - 1`: it is left at `g` at the latest. -/
theorem validatorSetLoop_gap_bound (x : External) (chain : String) (g lb₁ lb₂ : Nat)
    (hg : g < 2 ^ 64) (h₁ : g ≤ lb₁) (h₂ : g ≤ lb₂ + 1) (fuel : Nat) :
    ∀ (i : Nat) (db : DB) (lv lm : String) (acc : List ValsetUpdate),
      i ≤ g → db (BlockKey chain g) = none →
      validatorSetLoop x chain lb₁ fuel i db lv lm acc
        = validatorSetLoop x chain lb₂ fuel i db lv lm acc := by
  induction fuel with
  | zero => intros; rfl
  | succ fuel ih =>
    intro i db lv lm acc hi hgap
    rcases Nat.eq_or_lt_of_le hi with rfl | hlt
    · simp only [validatorSetLoop, h₁, ↓reduceIte, hgap]
      split <;> rfl
    · have e1 : (i + 1) % 2 ^ 64 = i + 1 := Nat.mod_eq_of_lt (by omega)
      have l1 : i ≤ lb₁ := by omega
      have l2 : i ≤ lb₂ := by omega
      simp only [validatorSetLoop, l1, l2, ↓reduceIte, e1]
      cases db (BlockKey chain i) with
      | none => rfl
      | some data =>
        dsimp only
        cases x.unmarshalBlock data with
        | none => rfl
        | some block =>
          dsimp only
          split
          · have hfr := GetValidatorsAtHeight_blockKey x chain db block.Height g
            rcases hgv : GetValidatorsAtHeight x chain db block.Height with ⟨r, db₁⟩
            rw [hgv] at hfr
            cases r with
            | error e => rfl
            | ok vs =>
              dsimp only
              exact ih _ _ _ _ _ (by omega) (by rw [← hgap]; exact hfr)
          · exact ih _ _ _ _ _ (by omega) hgap

/-- With a decodable block cached at every height from `i` up to `g - 1`, no block at `g`
and every validator-set lookup that the loop makes succeeding, the loop returns events once
the fuel exceeds the number of heights up to `g`. -/
theorem validatorSetLoop_gap_ok (x : External) (chain : String) (g lb : Nat)
    (hg : g < 2 ^ 64) (hlb : g ≤ lb) (fuel : Nat) :
    ∀ (i : Nat) (db : DB) (lv lm : String) (acc : List ValsetUpdate),
      i ≤ g → g - i < fuel → db (BlockKey chain g) = none →
      (∀ j, i ≤ j → j < g → ∃ data block,
        db (BlockKey chain j) = some data ∧ x.unmarshalBlock data = some block) →
      (∀ p ∈ validatorSetLookups x chain lb fuel i db lv,
        ∃ vs d', GetValidatorsAtHeight x chain p.1 p.2 = (.ok vs, d')) →
      ∃ evs db', validatorSetLoop x chain lb fuel i db lv lm acc = some (.ok evs, db') := by
  induction fuel with
  | zero => intro i db lv lm acc _ hf; omega
  | succ fuel ih =>
    intro i db lv lm acc hi hf hgap hc hlook
    rcases Nat.eq_or_lt_of_le hi with rfl | hlt
    · rw [validatorSetLoop, if_pos hlb]
      dsimp only
      rw [hgap]
      exact ⟨_, _, rfl⟩
    · have e1 : (i + 1) % 2 ^ 64 = i + 1 := Nat.mod_eq_of_lt (by omega)
      have l1 : i ≤ lb := by omega
      obtain ⟨data, block, hd, hb⟩ := hc i (Nat.le_refl _) hlt
      simp only [validatorSetLookups, l1, ↓reduceIte, e1, hd, hb] at hlook
      simp only [validatorSetLoop, l1, ↓reduceIte, e1, hd, hb]
      by_cases hv : hexUpper block.ValidatorsHash ≠ lv
      · rw [if_pos hv] at hlook ⊢
        obtain ⟨vs, d', hgv⟩ := hlook (db, block.Height) (List.mem_cons_self _ _)
        dsimp only at hgv
        have hfr : ∀ j, d' (BlockKey chain j) = db (BlockKey chain j) := by
          intro j
          have := GetValidatorsAtHeight_blockKey x chain db block.Height j
          rw [hgv] at this
          exact this
        rw [hgv] at hlook ⊢
        dsimp only at hlook ⊢
        apply ih _ _ _ _ _ (by omega) (by omega)
        · rw [hfr]; exact hgap
        · intro j hj1 hj2
          rw [hfr]
          exact hc j (by omega) hj2
        · intro p hp
          exact hlook p (List.mem_cons_of_mem _ hp)
      · rw [if_neg hv] at hlook ⊢
        apply ih _ _ _ _ _ (by omega) (by omega) hgap
        · intro j hj1 hj2
          exact hc j (by omega) hj2
        · exact hlook

/-- Below a gap at height `g` the events the loop returns depend only on the blocks cached at
heights up to `g` and on the memoized validator sets: what is cached above `g` is not read. -/
theorem validatorSetLoop_gap_indep (x : External) (chain : String) (g lb : Nat)
    (hg : g < 2 ^ 64) (hlb : g ≤ lb) (fuel : Nat) :
    ∀ (i : Nat) (db db₂ : DB) (lv lm : String) (acc : List ValsetUpdate),
      i ≤ g → db (BlockKey chain g) = none →
      (∀ j, j ≤ g → db₂ (BlockKey chain j) = db (BlockKey chain j)) →
      (∀ h, db₂ (validatorzKey chain h) = db (validatorzKey chain h)) →
      (validatorSetLoop x chain lb fuel i db₂ lv lm acc).map Prod.fst
        = (validatorSetLoop x chain lb fuel i db lv lm acc).map Prod.fst := by
  induction fuel with
  | zero => intros; rfl
  | succ fuel ih =>
    intro i db db₂ lv lm acc hi hgap hb hv
    rcases Nat.eq_or_lt_of_le hi with rfl | hlt
    · simp only [validatorSetLoop, hlb, ↓reduceIte, hb i (Nat.le_refl _), hgap]
      rfl
    · have e1 : (i + 1) % 2 ^ 64 = i + 1 := Nat.mod_eq_of_lt (by omega)
      have l1 : i ≤ lb := by omega
      simp only [validatorSetLoop, l1, ↓reduceIte, e1, hb i hi]
      cases db (BlockKey chain i) with
      | none => rfl
      | some data =>
        dsimp only
        cases x.unmarshalBlock data with
        | none => rfl
        | some block =>
          dsimp only
          split
          · obtain ⟨hc1, hc2⟩ := GetValidatorsAtHeight_congr x chain db db₂ block.Height
              (hv block.Height)
            have hf1 := GetValidatorsAtHeight_blockKey x chain db block.Height g
            rcases hgv : GetValidatorsAtHeight x chain db block.Height with ⟨r, db₁⟩
            rcases hgv₂ : GetValidatorsAtHeight x chain db₂ block.Height with ⟨r₂, db₃⟩
            rw [hgv, hgv₂] at hc1 hc2
            rw [hgv] at hf1
            dsimp only at hc1 hc2 hf1
            subst hc1
            cases r₂ with
            | error e => rfl
            | ok vs =>
              dsimp only
              apply ih _ _ _ _ _ _ (by omega) (by rw [← hgap]; exact hf1)
              · intro j hj
                exact hc2 _ (hb j hj)
              · intro h
                exact hc2 _ (hv h)
          · exact ih _ _ _ _ _ _ (by omega) hgap hb hv

/-- The lookups of `validatorSetLookups` are the ones the loop depends on: when the loop
returns events, every one of them has succeeded. -/
theorem validatorSetLookups_ok_of_loop_ok (x : External) (chain : String) (lb : Nat)
    (fuel : Nat) :
    ∀ (i : Nat) (db : DB) (lv lm : String) (acc evs : List ValsetUpdate) (db' : DB),
      validatorSetLoop x chain lb fuel i db lv lm acc = some (.ok evs, db') →
      ∀ p ∈ validatorSetLookups x chain lb fuel i db lv,
        ∃ vs d', GetValidatorsAtHeight x chain p.1 p.2 = (.ok vs, d') := by
  induction fuel with
  | zero =>
    intro i db lv lm acc evs db' _ p hp
    simp [validatorSetLookups] at hp
  | succ fuel ih =>
    intro i db lv lm acc evs db' h p hp
    by_cases l1 : i ≤ lb
    · simp only [validatorSetLoop, l1, ↓reduceIte] at h
      simp only [validatorSetLookups, l1, ↓reduceIte] at hp
      cases hd : db (BlockKey chain i) with
      | none => simp [hd] at hp
      | some data =>
        simp only [hd] at h hp
        cases hb : x.unmarshalBlock data with
        | none => simp [hb] at hp
        | some block =>
          simp only [hb] at h hp
          by_cases hv : hexUpper block.ValidatorsHash ≠ lv
          · rw [if_pos hv] at h hp
            rcases hgv : GetValidatorsAtHeight x chain db block.Height with ⟨r, d₁⟩
            rw [hgv] at h hp
            cases r with
            | error e => simp at h
            | ok vs =>
              dsimp only at h hp
              rcases List.mem_cons.mp hp with rfl | hp'
              · exact ⟨vs, d₁, hgv⟩
              · exact ih _ _ _ _ _ _ _ h p hp'
          · rw [if_neg hv] at h hp
            exact ih _ _ _ _ _ _ _ h p hp
    · simp [validatorSetLookups, l1] at hp

/-- C9: if a decodable block is cached at every height from `min` to `g - 1` and none at `g`
(`min ≤ g ≤ lb`), and the validator-set lookups that the scan makes succeed, then the scan of
`validatorSetAll` over `[min, lb]` returns events without error once the fuel exceeds
`g - min`; they are the events of the scan over `[min, g - 1]` (none when `g = min`), also as
results of `validatorSetAll` itself; and they are the same for every cache that agrees on the
blocks up to `g` and on the memoized validator sets, whatever is cached above `g`. -/
theorem gap_stop (x : External) (chain : String) (db : DB) (min lb g fuel : Nat)
    (hmin : min ≤ g) (hg : g ≤ lb) (hlb : lb < 2 ^ 64)
    (hcached : ∀ j, min ≤ j → j < g → ∃ data block,
      db (BlockKey chain j) = some data ∧ x.unmarshalBlock data = some block)
    (hgap : db (BlockKey chain g) = none)
    (hlookups : ∀ p ∈ validatorSetLookups x chain lb fuel min db "",
      ∃ vs d', GetValidatorsAtHeight x chain p.1 p.2 = (.ok vs, d'))
    (hfuel : g - min < fuel) :
    ∃ evs db', validatorSetLoop x chain lb fuel min db "" "" [] = some (.ok evs, db') ∧
      (min < g → validatorSetLoop x chain (g - 1) fuel min db "" "" [] = some (.ok evs, db')) ∧
      (g = min → evs = []) ∧
      (parseUint (x.envMinHeight chain) = some min → min < g →
        validatorSetAll x fuel db chain (some lb)
          = validatorSetAll x fuel db chain (some (g - 1))) ∧
      (∀ db₂ : DB, (∀ j, j ≤ g → db₂ (BlockKey chain j) = db (BlockKey chain j)) →
        (∀ h, db₂ (validatorzKey chain h) = db (validatorzKey chain h)) →
        (validatorSetLoop x chain lb fuel min db₂ "" "" []).map Prod.fst = some (.ok evs)) := by
  have hg64 : g < 2 ^ 64 := by omega
  obtain ⟨evs, db', hrun⟩ :=
    validatorSetLoop_gap_ok x chain g lb hg64 hg fuel min db "" "" [] hmin hfuel hgap
      hcached hlookups
  have hbound : min < g → validatorSetLoop x chain lb fuel min db "" "" []
      = validatorSetLoop x chain (g - 1) fuel min db "" "" [] := by
    intro hlt
    exact validatorSetLoop_gap_bound x chain g lb (g - 1) hg64 hg (by omega) fuel min db "" ""
      [] hmin hgap
  refine ⟨evs, db', hrun, ?_, ?_, ?_, ?_⟩
  · intro hlt
    rw [← hbound hlt]
    exact hrun
  · intro heq
    subst heq
    cases fuel with
    | zero => omega
    | succ fuel =>
      simp only [validatorSetLoop, hg, ↓reduceIte, hgap, Option.some.injEq, Prod.mk.injEq,
        Except.ok.injEq] at hrun
      exact hrun.1.symm
  · intro hparse hlt
    have n1 : ¬ lb < min := by omega
    have n2 : ¬ g - 1 < min := by omega
    simp only [validatorSetAll, hparse, n1, n2, ↓reduceIte, hbound hlt]
  · intro db₂ hb hv
    rw [validatorSetLoop_gap_indep x chain g lb hg64 hg fuel min db db₂ "" "" [] hmin hgap hb
      hv, hrun]
    rfl

/-- The environment `strictExternal` is partial: at height 11 the node gives no validator set
and the lookup fails, and the empty byte string does not decode. -/
theorem strictExternal_partial :
    (GetValidatorsAtHeight strictExternal "provider" sampleDB 11).1
      = .error "failed to get validators" ∧
    strictExternal.unmarshalValidators [] = none :=
  ⟨rfl, rfl⟩

theorem gap_stop_witness :
    ∃ evs db', validatorSetLoop strictExternal "provider" 20 7 10 sampleDB "" "" []
        = some (.ok evs, db') ∧
      (10 < 16 → validatorSetLoop strictExternal "provider" (16 - 1) 7 10 sampleDB "" "" []
        = some (.ok evs, db')) ∧
      (16 = 10 → evs = []) ∧
      (parseUint (strictExternal.envMinHeight "provider") = some 10 → 10 < 16 →
        validatorSetAll strictExternal 7 sampleDB "provider" (some 20)
          = validatorSetAll strictExternal 7 sampleDB "provider" (some (16 - 1))) ∧
      (∀ db₂ : DB,
        (∀ j, j ≤ 16 → db₂ (BlockKey "provider" j) = sampleDB (BlockKey "provider" j)) →
        (∀ h, db₂ (validatorzKey "provider" h) = sampleDB (validatorzKey "provider" h)) →
        (validatorSetLoop strictExternal "provider" 20 7 10 db₂ "" "" []).map Prod.fst
          = some (.ok evs)) :=
  gap_stop strictExternal "provider" sampleDB 10 20 16 7 (by decide) (by decide) (by decide)
    (by
      intro j h1 h2
      interval_cases j <;> exact ⟨_, _, rfl, rfl⟩)
    rfl
    (by
      intro p hp
      have htrace : validatorSetLookups strictExternal "provider" 20 7 10 sampleDB ""
          = [(sampleDB, 10), (sampleDB.put (validatorzKey "provider" 10) [171, 5], 13)] := rfl
      rw [htrace] at hp
      simp only [List.mem_cons, List.mem_singleton, List.not_mem_nil, or_false] at hp
      rcases hp with rfl | rfl <;> exact ⟨_, _, rfl⟩)
    (by decide)

/-! ## Facts about the ingest step -/

theorem indexBlock_cached (x : External) (name : String) (s : IngestState) (height : Nat)
    (h : (s.db (BlockKey name height)).isSome = true) :
    indexBlock x name s height false = (none, s) := by
  simp [indexBlock, h]

theorem indexHeights_cached (x : External) (name : String) (s : IngestState) (hs : List Nat)
    (h : ∀ height ∈ hs, (s.db (BlockKey name height)).isSome = true) :
    indexHeights x name s hs = s := by
  induction hs with
  | nil => rfl
  | cons height rest ih =>
    unfold indexHeights
    rw [indexBlock_cached x name s height (h height (List.mem_cons_self _ _))]
    exact ih (fun k hk => h k (List.mem_cons_of_mem _ hk))

/-- C10: when the block key of a height is present in the cache, `indexBlock` with
`force = false` returns no error, requests nothing from the Chain Client and leaves the cache
as it is; hence a run of the per-height step over heights that are all cached (such as a
second run after a first one that cached them all) leaves the cache and the log of Chain
Client requests unchanged. -/
theorem ingest_idempotent (x : External) (name : String) (s : IngestState) (height : Nat)
    (h : (s.db (BlockKey name height)).isSome = true) :
    (indexBlock x name s height false).1 = none ∧
    (indexBlock x name s height false).2.fetches = s.fetches ∧
    (indexBlock x name s height false).2.db = s.db ∧
    (∀ (s' : IngestState) (hs : List Nat),
      (∀ k ∈ hs, (s'.db (BlockKey name k)).isSome = true) →
      (indexHeights x name s' hs).db = s'.db ∧
      (indexHeights x name s' hs).fetches = s'.fetches) ∧
    (∀ (s₀ : IngestState) (hs : List Nat),
      (∀ k ∈ hs, ((indexHeights x name s₀ hs).db (BlockKey name k)).isSome = true) →
      indexHeights x name (indexHeights x name s₀ hs) hs = indexHeights x name s₀ hs) := by
  rw [indexBlock_cached x name s height h]
  refine ⟨rfl, rfl, rfl, ?_, ?_⟩
  · intro s' hs hall
    rw [indexHeights_cached x name s' hs hall]
    exact ⟨rfl, rfl⟩
  · intro s₀ hs hall
    exact indexHeights_cached x name _ hs hall

theorem ingest_idempotent_witness :
    (indexBlock sampleExternal "provider" ⟨sampleDB, []⟩ 12 false).1 = none ∧
    (indexBlock sampleExternal "provider" ⟨sampleDB, []⟩ 12 false).2.fetches = [] ∧
    (indexBlock sampleExternal "provider" ⟨sampleDB, []⟩ 12 false).2.db = sampleDB ∧
    (∀ (s' : IngestState) (hs : List Nat),
      (∀ k ∈ hs, (s'.db (BlockKey "provider" k)).isSome = true) →
      (indexHeights sampleExternal "provider" s' hs).db = s'.db ∧
      (indexHeights sampleExternal "provider" s' hs).fetches = s'.fetches) ∧
    (∀ (s₀ : IngestState) (hs : List Nat),
      (∀ k ∈ hs,
        ((indexHeights sampleExternal "provider" s₀ hs).db (BlockKey "provider" k)).isSome
          = true) →
      indexHeights sampleExternal "provider" (indexHeights sampleExternal "provider" s₀ hs) hs
        = indexHeights sampleExternal "provider" s₀ hs) :=
  ingest_idempotent sampleExternal "provider" ⟨sampleDB, []⟩ 12 rfl

/-- An error of `indexBlock` other than the failed write of the evidence leaves the cache as
it was; after the failed write of the evidence only the block entry of the height differs. -/
theorem indexBlock_error_effect (x : External) (name : String) (s : IngestState)
    (height : Nat) (force : Bool) (e : String)
    (herr : (indexBlock x name s height force).1 = some e) :
    (e ≠ "failed to save evidence" → (indexBlock x name s height force).2.db = s.db) ∧
    (∀ k, k ≠ BlockKey name height → (indexBlock x name s height force).2.db k = s.db k) := by
  by_cases hskip : ((s.db (BlockKey name height)).isSome && !force) = true
  · simp [indexBlock, hskip] at herr
  · cases hf : GetBlockByHeight x height with
    | error m => simp [indexBlock, hskip, hf]
    | ok be =>
      obtain ⟨block, evidence⟩ := be
      cases hm : x.marshalBlock block with
      | none => simp [indexBlock, hskip, hf, hm]
      | some data =>
        by_cases hp : x.putFails (BlockKey name height) = true
        · simp [indexBlock, hskip, hf, hm, hp]
        · cases evidence with
          | none => simp [indexBlock, hskip, hf, hm, hp] at herr
          | some ev =>
            by_cases hp2 : x.putFails (name ++ ":evidence:" ++ toString height) = true
            · simp only [indexBlock, hskip, hf, hm, hp, hp2, Bool.false_eq_true, ↓reduceIte,
                Option.some.injEq] at herr ⊢
              constructor
              · intro hne
                exact absurd herr.symm hne
              · intro k hk
                simp [DB.put, hk]
            · simp [indexBlock, hskip, hf, hm, hp, hp2] at herr


/-- When `indexBlock` fails on the write of the evidence, the block of the height has been
written before: the block key is present afterwards. -/
theorem indexBlock_evidence_failure_caches_block (x : External) (name : String)
    (s : IngestState) (height : Nat) (force : Bool)
    (hempty : s.db (BlockKey name height) = none)
    (herr : (indexBlock x name s height force).1 = some "failed to save evidence") :
    ((indexBlock x name s height force).2.db (BlockKey name height)).isSome = true := by
  have hskip : ¬ ((s.db (BlockKey name height)).isSome && !force) = true := by simp [hempty]
  cases hf : GetBlockByHeight x height with
  | error m => simp [indexBlock, hskip, hf] at herr
  | ok be =>
    obtain ⟨block, evidence⟩ := be
    cases hm : x.marshalBlock block with
    | none => simp [indexBlock, hskip, hf, hm] at herr
    | some data =>
      by_cases hp : x.putFails (BlockKey name height) = true
      · simp [indexBlock, hskip, hf, hm, hp] at herr
      · cases evidence with
        | none => simp [indexBlock, hskip, hf, hm, hp] at herr
        | some ev =>
          by_cases hp2 : x.putFails (name ++ ":evidence:" ++ toString height) = true
          · simp [indexBlock, hskip, hf, hm, hp, hp2, DB.put]
          · simp [indexBlock, hskip, hf, hm, hp, hp2] at herr

/-- C11 (code against the claim): with no block cached at height 16, a fetched block that
carries evidence, a block write that succeeds and an evidence write that fails, `indexBlock`
returns the error of the evidence write, yet the block entry of height 16 is in the cache
afterwards and the evidence entry is not; a second `indexBlock` with `force = false` then
skips the height without a fetch, so the evidence is never stored. -/
theorem indexBlock_evidence_failure :
    sampleDB (BlockKey "provider" 16) = none ∧
    (indexBlock evidenceFailExternal "provider" ⟨sampleDB, []⟩ 16 false).1
      = some "failed to save evidence" ∧
    (indexBlock evidenceFailExternal "provider" ⟨sampleDB, []⟩ 16 false).2.db
      (BlockKey "provider" 16) = some [16, 160, 1] ∧
    (indexBlock evidenceFailExternal "provider" ⟨sampleDB, []⟩ 16 false).2.db
      (EvidenceKey "provider" 16) = none ∧
    (indexBlock evidenceFailExternal "provider" ⟨sampleDB, []⟩ 16 false).2.fetches = [16] ∧
    (indexBlock evidenceFailExternal "provider"
      (indexBlock evidenceFailExternal "provider" ⟨sampleDB, []⟩ 16 false).2 16 false).1
      = none ∧
    (indexBlock evidenceFailExternal "provider"
      (indexBlock evidenceFailExternal "provider" ⟨sampleDB, []⟩ 16 false).2 16 false).2.fetches
      = [16] ∧
    (indexBlock evidenceFailExternal "provider"
      (indexBlock evidenceFailExternal "provider" ⟨sampleDB, []⟩ 16 false).2 16 false).2.db
      (EvidenceKey "provider" 16) = none := by
  decide

/-! ## Facts about the cache keys -/

theorem digitChar_decimal :
    ∀ k, k < 10 → Nat.digitChar k ≠ ':' ∧ (Nat.digitChar k).toNat - 48 = k := by
  decide

/-- The digits that `Nat.toDigitsCore` puts in front of its accumulator contain no colon and
read back as the number, when the fuel exceeds the number. -/
theorem toDigitsCore_decimal (fuel : Nat) :
    ∀ (n : Nat) (ds : List Char), n < fuel →
      ∃ pre, Nat.toDigitsCore 10 fuel n ds = pre ++ ds ∧ (∀ c ∈ pre, c ≠ ':') ∧
        pre.foldl (fun acc ch => 10 * acc + (ch.toNat - 48)) 0 = n := by
  induction fuel with
  | zero => intro n ds h; omega
  | succ fuel ih =>
    intro n ds hn
    have hd := digitChar_decimal (n % 10) (Nat.mod_lt _ (by decide))
    unfold Nat.toDigitsCore
    dsimp only
    by_cases h0 : n / 10 = 0
    · rw [if_pos h0]
      refine ⟨[Nat.digitChar (n % 10)], rfl, ?_, ?_⟩
      · intro c hc
        rw [List.mem_singleton] at hc
        rw [hc]
        exact hd.1
      · simp only [List.foldl_cons, List.foldl_nil, hd.2]
        omega
    · rw [if_neg h0]
      obtain ⟨pre, hpre, hcol, hval⟩ := ih (n / 10) (Nat.digitChar (n % 10) :: ds) (by omega)
      refine ⟨pre ++ [Nat.digitChar (n % 10)], ?_, ?_, ?_⟩
      · rw [hpre]
        simp
      · intro c hc
        rcases List.mem_append.mp hc with h | h
        · exact hcol c h
        · rw [List.mem_singleton] at h
          rw [h]
          exact hd.1
      · rw [List.foldl_append, hval]
        simp only [List.foldl_cons, List.foldl_nil, hd.2]
        omega

theorem toString_nat_data (n : Nat) :
    (∀ c ∈ (toString n).data, c ≠ ':') ∧
    (toString n).data.foldl (fun acc ch => 10 * acc + (ch.toNat - 48)) 0 = n := by
  obtain ⟨pre, hpre, hcol, hval⟩ := toDigitsCore_decimal (n + 1) n [] (Nat.lt_succ_self n)
  have hdata : (toString n).data = pre := by
    show (Nat.toDigits 10 n) = pre
    unfold Nat.toDigits
    rw [hpre, List.append_nil]
  rw [hdata]
  exact ⟨hcol, hval⟩

theorem toString_nat_injective (m n : Nat) (h : toString m = toString n) : m = n := by
  have hm := (toString_nat_data m).2
  have hn := (toString_nat_data n).2
  rw [h] at hm
  omega

/-- Two lists that end in the same separator followed by separator-free tails are equal only
when the parts before the separator and the tails are equal. -/
theorem append_sep_inj (a : Char) :
    ∀ (l₁ l₂ d₁ d₂ : List Char), a ∉ d₁ → a ∉ d₂ → l₁ ++ a :: d₁ = l₂ ++ a :: d₂ →
      l₁ = l₂ ∧ d₁ = d₂ := by
  intro l₁
  induction l₁ with
  | nil =>
    intro l₂ d₁ d₂ h₁ _ h
    cases l₂ with
    | nil =>
      simp only [List.nil_append, List.cons.injEq, true_and] at h
      exact ⟨rfl, h⟩
    | cons b l₂ =>
      simp only [List.nil_append, List.cons_append, List.cons.injEq] at h
      exact absurd (by rw [h.2]; simp) h₁
  | cons b l₁ ih =>
    intro l₂ d₁ d₂ h₁ h₂ h
    cases l₂ with
    | nil =>
      simp only [List.nil_append, List.cons_append, List.cons.injEq] at h
      exact absurd (by rw [← h.2]; simp) h₂
    | cons c l₂ =>
      simp only [List.cons_append, List.cons.injEq] at h
      obtain ⟨hl, hd⟩ := ih l₂ d₁ d₂ h₁ h₂ h.2
      exact ⟨by rw [h.1, hl], hd⟩


/-- A key `name ++ tag ++ ":" ++ height` determines `name ++ tag` and the height. -/
theorem taggedKey_inj (tag₁ tag₂ : List Char) (c₁ c₂ : String) (h₁ h₂ : Nat)
    (h : c₁.data ++ (tag₁ ++ ':' :: (toString h₁).data)
      = c₂.data ++ (tag₂ ++ ':' :: (toString h₂).data)) :
    c₁.data ++ tag₁ = c₂.data ++ tag₂ ∧ h₁ = h₂ := by
  rw [← List.append_assoc, ← List.append_assoc] at h
  obtain ⟨hl, hd⟩ := append_sep_inj ':' _ _ _ _
    (fun hm => (toString_nat_data h₁).1 _ hm rfl)
    (fun hm => (toString_nat_data h₂).1 _ hm rfl) h
  exact ⟨hl, toString_nat_injective h₁ h₂ (String.ext hd)⟩

theorem BlockKey_data (c : String) (h : Nat) :
    (BlockKey c h).data
      = c.data ++ ([':', 'b', 'l', 'o', 'c', 'k'] ++ ':' :: (toString h).data) := by
  simp [BlockKey, String.data_append]

theorem EvidenceKey_data (c : String) (h : Nat) :
    (EvidenceKey c h).data
      = c.data ++ ([':', 'e', 'v', 'i', 'd', 'e', 'n', 'c', 'e'] ++ ':' :: (toString h).data) := by
  simp [EvidenceKey, String.data_append]

theorem BlockKey_inj (c₁ c₂ : String) (h₁ h₂ : Nat) (h : BlockKey c₁ h₁ = BlockKey c₂ h₂) :
    c₁ = c₂ ∧ h₁ = h₂ := by
  have hd := congrArg String.data h
  rw [BlockKey_data, BlockKey_data] at hd
  obtain ⟨hl, hh⟩ := taggedKey_inj _ _ _ _ _ _ hd
  exact ⟨String.ext (List.append_cancel_right hl), hh⟩

theorem EvidenceKey_inj (c₁ c₂ : String) (h₁ h₂ : Nat)
    (h : EvidenceKey c₁ h₁ = EvidenceKey c₂ h₂) : c₁ = c₂ ∧ h₁ = h₂ := by
  have hd := congrArg String.data h
  rw [EvidenceKey_data, EvidenceKey_data] at hd
  obtain ⟨hl, hh⟩ := taggedKey_inj _ _ _ _ _ _ hd
  exact ⟨String.ext (List.append_cancel_right hl), hh⟩

theorem BlockKey_ne_EvidenceKey (c₁ c₂ : String) (h₁ h₂ : Nat) :
    BlockKey c₁ h₁ ≠ EvidenceKey c₂ h₂ := by
  intro h
  have hd := congrArg String.data h
  rw [BlockKey_data, EvidenceKey_data] at hd
  obtain ⟨hl, _⟩ := taggedKey_inj _ _ _ _ _ _ hd
  have hr := congrArg List.reverse hl
  simp at hr

/-- C12: block keys and evidence keys determine the chain name and the height, for arbitrary
chain names, and a block key is never an evidence key; so for two distinct chain names no
block or evidence key of one chain is a key of the other. -/
theorem keys_never_collide (c₁ c₂ : String) (h₁ h₂ : Nat) :
    (BlockKey c₁ h₁ = BlockKey c₂ h₂ → c₁ = c₂ ∧ h₁ = h₂) ∧
    (EvidenceKey c₁ h₁ = EvidenceKey c₂ h₂ → c₁ = c₂ ∧ h₁ = h₂) ∧
    BlockKey c₁ h₁ ≠ EvidenceKey c₂ h₂ ∧
    (c₁ ≠ c₂ →
      BlockKey c₁ h₁ ≠ BlockKey c₂ h₂ ∧ EvidenceKey c₁ h₁ ≠ EvidenceKey c₂ h₂ ∧
      BlockKey c₁ h₁ ≠ EvidenceKey c₂ h₂ ∧ EvidenceKey c₁ h₁ ≠ BlockKey c₂ h₂) :=
  ⟨BlockKey_inj c₁ c₂ h₁ h₂, EvidenceKey_inj c₁ c₂ h₁ h₂, BlockKey_ne_EvidenceKey c₁ c₂ h₁ h₂,
    fun hne => ⟨fun h => hne (BlockKey_inj c₁ c₂ h₁ h₂ h).1,
      fun h => hne (EvidenceKey_inj c₁ c₂ h₁ h₂ h).1, BlockKey_ne_EvidenceKey c₁ c₂ h₁ h₂,
      fun h => BlockKey_ne_EvidenceKey c₂ c₁ h₂ h₁ h.symm⟩⟩

theorem keys_never_collide_witness :
    BlockKey "provider" 7 ≠ BlockKey "consumer1" 7 ∧
    EvidenceKey "provider" 7 ≠ EvidenceKey "consumer1" 7 ∧
    BlockKey "provider" 7 ≠ EvidenceKey "consumer1" 7 ∧
    EvidenceKey "provider" 7 ≠ BlockKey "consumer1" 7 :=
  (keys_never_collide "provider" "consumer1" 7 7).2.2.2 (by decide)

/-! ## Facts about totality -/

theorem isInOrderIndexedLoop_eq (validatorSet : List ValsetUpdate) (vs : ValsetUpdate)
    (fuel : Nat) :
    ∀ (i fc fp : Nat), validatorSet.length - i < fuel →
      isInOrderIndexedLoop validatorSet vs fuel i fc fp
        = .ok (isInOrderLoop vs (validatorSet.drop i) i fc fp) := by
  induction fuel with
  | zero => intro i fc fp h; omega
  | succ fuel ih =>
    intro i fc fp h
    unfold isInOrderIndexedLoop
    by_cases hi : i < validatorSet.length
    · rw [if_pos hi, List.getElem?_eq_getElem hi, List.drop_eq_getElem_cons hi]
      dsimp only
      unfold isInOrderLoop
      split
      · rfl
      · exact ih _ _ _ (by omega)
    · rw [if_neg hi, List.drop_eq_nil_of_le (by omega)]
      rfl

theorem isInOrderIndexed_eq (fuel : Nat) (validatorSet : List ValsetUpdate)
    (vs : ValsetUpdate) (h : validatorSet.length < fuel) :
    isInOrderIndexed fuel validatorSet vs = .ok (isInOrder validatorSet vs) := by
  unfold isInOrderIndexed isInOrder
  split
  · rfl
  · rw [isInOrderIndexedLoop_eq validatorSet vs fuel 0 0 0 (by omega), List.drop_zero]

theorem classifyIndexed_eq (fuel : Nat) (P : List ValsetUpdate) (first : ValsetUpdate)
    (valset : ValsetMap) (c : Counts) (vs : ValsetUpdate) (h : P.length < fuel) :
    classifyIndexed fuel P first valset c vs = .ok (classify P first valset c vs) := by
  unfold classifyIndexed classify
  rw [isInOrderIndexed_eq fuel P vs h]
  split
  · rfl
  · split
    · rfl
    · split
      · rfl
      · dsimp only
        split <;> rfl

theorem classifyAllIndexed_eq (fuel : Nat) (P : List ValsetUpdate) (first : ValsetUpdate)
    (valset : ValsetMap) (h : P.length < fuel) (C : List ValsetUpdate) :
    ∀ c, classifyAllIndexed fuel P first valset c C
      = .ok (classifyAll P first valset c C) := by
  induction C with
  | nil => intro c; rfl
  | cons vs rest ih =>
    intro c
    unfold classifyAllIndexed classifyAll
    rw [classifyIndexed_eq fuel P first valset c vs h]
    exact ih _

theorem classify_sum_le (P : List ValsetUpdate) (first : ValsetUpdate) (valset : ValsetMap)
    (c : Counts) (vs : ValsetUpdate) :
    (classify P first valset c vs).missingCount
        + (classify P first valset c vs).notExistedOnProvider
        + (classify P first valset c vs).outOfOrderCount
      ≤ c.missingCount + c.notExistedOnProvider + c.outOfOrderCount + 1 := by
  unfold classify
  split
  · omega
  · split
    · dsimp only; omega
    · split
      · dsimp only; omega
      · split
        · dsimp only; omega
        · omega

theorem classifyAll_sum_le (P : List ValsetUpdate) (first : ValsetUpdate) (valset : ValsetMap)
    (C : List ValsetUpdate) :
    ∀ c, (classifyAll P first valset c C).missingCount
        + (classifyAll P first valset c C).notExistedOnProvider
        + (classifyAll P first valset c C).outOfOrderCount
      ≤ c.missingCount + c.notExistedOnProvider + c.outOfOrderCount + C.length := by
  induction C with
  | nil => intro c; simp [classifyAll]
  | cons vs rest ih =>
    intro c
    unfold classifyAll
    have h1 := ih (classify P first valset c vs)
    have h2 := classify_sum_le P first valset c vs
    rw [List.length_cons]
    omega


/-- When the provider's changelog build ends in an error, or no provider block is cached at
the minimum height, the slice left to the consistency check is empty. -/
theorem returnedSlice_empty (x : External) (n : Nat) (db db' : DB) (chain : String)
    (latestBlock : Option Nat) (r : Except String (List ValsetUpdate))
    (hrun : validatorSetAll x n db chain latestBlock = some (r, db'))
    (hcase : (∃ e, r = .error e) ∨
      (∃ min, parseUint (x.envMinHeight chain) = some min ∧ db (BlockKey chain min) = none)) :
    returnedSlice r = [] := by
  rcases hcase with ⟨e, rfl⟩ | ⟨min, hparse, hgap⟩
  · rfl
  · unfold validatorSetAll at hrun
    simp only [hparse] at hrun
    split at hrun
    · cases hrun; rfl
    · split at hrun
      · cases hrun; rfl
      · split at hrun
        · cases hrun; rfl
        · split at hrun
          · cases hrun; rfl
          · rename_i lb _
            split at hrun
            · cases hrun; rfl
            · split at hrun
              · cases hrun; rfl
              · cases n with
                | zero => simp [validatorSetLoop] at hrun
                | succ n =>
                  have hle : min ≤ lb := by omega
                  simp only [validatorSetLoop, hle, ↓reduceIte, hgap, Option.some.injEq,
                    Prod.mk.injEq] at hrun
                  rw [← hrun.1]
                  rfl

/-- C13: for a non-empty provider sequence the consistency check, run with every index read
checked and with more fuel than the provider sequence is long, makes no out-of-range read
and ends with three counts whose sum is at most the number of consumer events; for an empty
provider sequence the read of `validatorSetProvider[0]` is out of range and no counts are
returned. The provider sequence is empty when the provider's changelog build returned an
error or found no block cached at the minimum height. -/
theorem consistency_check_total (fuel : Nat) (P C : List ValsetUpdate)
    (hfuel : P.length < fuel) :
    (P ≠ [] → ∃ c, viewMissingValidatorIndexed fuel P C = .ok c ∧
      viewMissingValidator P C = some c ∧
      c.missingCount + c.notExistedOnProvider + c.outOfOrderCount ≤ C.length) ∧
    (∀ vs, isInOrderIndexed fuel P vs = .ok (isInOrder P vs)) ∧
    (P = [] → viewMissingValidatorIndexed fuel P C = .indexOutOfRange ∧
      viewMissingValidator P C = none) ∧
    (∀ (x : External) (n : Nat) (db db' : DB) (latestBlock : Option Nat)
      (r : Except String (List ValsetUpdate)),
      validatorSetAll x n db "provider" latestBlock = some (r, db') →
      ((∃ e, r = .error e) ∨ (∃ min, parseUint (x.envMinHeight "provider") = some min ∧
        db (BlockKey "provider" min) = none)) →
      viewMissingValidatorIndexed fuel (returnedSlice r) C = .indexOutOfRange ∧
      viewMissingValidator (returnedSlice r) C = none) := by
  refine ⟨?_, fun vs => isInOrderIndexed_eq fuel P vs hfuel, ?_, ?_⟩
  · intro hP
    cases P with
    | nil => exact absurd rfl hP
    | cons first P' =>
      refine ⟨_, ?_, rfl, ?_⟩
      · simp only [viewMissingValidatorIndexed, List.getElem?_cons_zero]
        exact classifyAllIndexed_eq fuel (first :: P') first _ hfuel C _
      · have := classifyAll_sum_le (first :: P') first
          (buildValset (first :: P') (fun _ => none)) C ⟨0, 0, 0⟩
        simpa using this
  · intro hP
    subst hP
    exact ⟨rfl, rfl⟩
  · intro x n db db' latestBlock r hrun hcase
    rw [returnedSlice_empty x n db db' "provider" latestBlock r hrun hcase]
    exact ⟨rfl, rfl⟩

theorem consistency_check_total_witness :
    (∃ c, viewMissingValidatorIndexed 3 sampleEvents
        [⟨"c1", "", "AB:5", "", 4, 105⟩, ⟨"c2", "c1", "H", "AB:5", 9, 140⟩] = .ok c ∧
      viewMissingValidator sampleEvents
        [⟨"c1", "", "AB:5", "", 4, 105⟩, ⟨"c2", "c1", "H", "AB:5", 9, 140⟩] = some c ∧
      c.missingCount + c.notExistedOnProvider + c.outOfOrderCount
        ≤ ([⟨"c1", "", "AB:5", "", 4, 105⟩, ⟨"c2", "c1", "H", "AB:5", 9, 140⟩] :
          List ValsetUpdate).length) ∧
    (viewMissingValidatorIndexed 1 []
        [⟨"c1", "", "AB:5", "", 4, 105⟩, ⟨"c2", "c1", "H", "AB:5", 9, 140⟩]
        = .indexOutOfRange ∧
      viewMissingValidator []
        [⟨"c1", "", "AB:5", "", 4, 105⟩, ⟨"c2", "c1", "H", "AB:5", 9, 140⟩] = none) ∧
    (validatorSetAll sampleExternal 1 (fun _ => none) "provider" (some 20)
        = some (.ok [], fun _ => none) ∧
      viewMissingValidatorIndexed 1 (returnedSlice (.ok []))
        [⟨"c1", "", "AB:5", "", 4, 105⟩, ⟨"c2", "c1", "H", "AB:5", 9, 140⟩]
        = .indexOutOfRange ∧
      viewMissingValidator (returnedSlice (.ok []))
        [⟨"c1", "", "AB:5", "", 4, 105⟩, ⟨"c2", "c1", "H", "AB:5", 9, 140⟩] = none) :=
  ⟨(consistency_check_total 3 sampleEvents
      [⟨"c1", "", "AB:5", "", 4, 105⟩, ⟨"c2", "c1", "H", "AB:5", 9, 140⟩] (by decide)).1
      (by decide),
    (consistency_check_total 1 []
      [⟨"c1", "", "AB:5", "", 4, 105⟩, ⟨"c2", "c1", "H", "AB:5", 9, 140⟩] (by decide)).2.2.1
      rfl,
    rfl,
    (consistency_check_total 1 []
      [⟨"c1", "", "AB:5", "", 4, 105⟩, ⟨"c2", "c1", "H", "AB:5", 9, 140⟩] (by decide)).2.2.2
      sampleExternal 1 (fun _ => none) (fun _ => none) (some 20) (.ok []) rfl
      (Or.inr ⟨10, rfl, rfl⟩)⟩

end VsetDetect
